import Mathlib

/-!
# Bitmap operations (`bitmapOperations.c`)

A shallow embedding of the bitmap codec (`load_image`, `save_image`) and of the
pixel transforms (`invert_pixels`, `flip_horizontal_pixels`, `quantize_pixels`,
`remove_red_pixels`, `remove_green_pixels`, `remove_blue_pixels`).

Conventions of the embedding:

* an `unsigned char` is a `Nat`; every store of a computed value into an
  `unsigned char` reduces it modulo `256`;
* an `int` is an `Int`; a loop counter that only takes non-negative values is a `Nat`;
* `struct Pixel** pixels` is a list of rows, each row a list of pixels; every access
  `pixels[i][j]` is bounds-checked and the whole computation yields `none` as soon as one
  access is out of bounds (undefined behaviour in C);
* a counted loop `for (i = 0; i < n; i++)` is a structural recursion on the number of
  iterations that remain, which is `n.toNat` for an `int` bound `n`;
* a file is the list of its bytes; `fopen` in mode `"r"`/`"w"` is taken with POSIX
  semantics (no translation of the bytes);
* the calls of `malloc` in `load_image`, which are sized by the header of the file, may
  return a null pointer: their outcome is a parameter, and a store through a null
  pointer yields `none`. The scratch array of `flip_horizontal_pixels`, which has the
  size of the grid the caller already holds, is taken as allocated.
-/

namespace Bitmap

/-! ## Data model -/

/-- The macro `FAIL`. -/
def FAIL : Nat := 1

/-- The macro `SUCCESS`. -/
def SUCCESS : Nat := 0

/-- The macro `RED`. -/
def RED : Int := 1

/-- The macro `GREEN`. -/
def GREEN : Int := 2

/-- The macro `BLUE`. -/
def BLUE : Int := 3

/-- The C `struct Pixel`: three `unsigned char` channels. -/
structure Pixel where
  red : Nat
  green : Nat
  blue : Nat
  deriving DecidableEq

/-- The C `struct Pixel**`: a list of rows. -/
abbrev Grid := List (List Pixel)

/-- The C `struct RGB_Image`, without the `file_name` buffer. -/
structure RGB_Image where
  height : Int
  width : Int
  size : Int
  pixels : Grid
  deriving DecidableEq

/-- All three channels of the pixel fit an `unsigned char`. -/
def Pixel.IsByte (p : Pixel) : Prop := p.red < 256 ∧ p.green < 256 ∧ p.blue < 256

instance (p : Pixel) : Decidable p.IsByte := by
  unfold Pixel.IsByte; infer_instance

/-- The grid has exactly `height` rows of exactly `width` pixels each. -/
def Shape (g : Grid) (height width : Nat) : Prop :=
  g.length = height ∧ ∀ row ∈ g, row.length = width

instance (g : Grid) (height width : Nat) : Decidable (Shape g height width) := by
  unfold Shape; infer_instance

/-- Every channel of every pixel of the grid fits an `unsigned char`. -/
def ByteGrid (g : Grid) : Prop := ∀ row ∈ g, ∀ p ∈ row, Pixel.IsByte p

instance (g : Grid) : Decidable (ByteGrid g) := by
  unfold ByteGrid; infer_instance

/-! ## Memory accesses and loops -/

/-- Bounds-checked read of `pixels[i][j]`. -/
def readPixel (pixels : Grid) (i j : Nat) : Option Pixel :=
  match pixels[i]? with
  | none => none
  | some row => row[j]?

/-- Bounds-checked update of the fields of `pixels[i][j]`: the pixel stored there is
replaced by its image under `f`. -/
def modifyPixel (pixels : Grid) (i j : Nat) (f : Pixel → Pixel) : Option Grid :=
  match pixels[i]? with
  | none => none
  | some row =>
    match row[j]? with
    | none => none
    | some p => some (pixels.set i (row.set j (f p)))

/-- The loop `for (i = start; ...; i++) body`, with `n` iterations left to run. -/
def forUp {σ : Type} (body : Nat → σ → Option σ) : Nat → Nat → σ → Option σ
  | 0, _, s => some s
  | n + 1, i, s => (body i s).bind (forUp body n (i + 1))

/-- The loop `for (j = n - 1; j >= 0; j--) body`: the counter argument is `j + 1`. -/
def forDown {σ : Type} (body : Nat → σ → Option σ) : Nat → σ → Option σ
  | 0, s => some s
  | j + 1, s => (body j s).bind (forDown body j)

/-- The nested loops
`for (i = 0; i < height; i++) for (j = 0; j < width; j++) body` over `int` bounds. -/
def forEachPixel {σ : Type} (height width : Int) (body : Nat → Nat → σ → Option σ)
    (s : σ) : Option σ :=
  forUp (fun i s => forUp (fun j s => body i j s) width.toNat 0 s) height.toNat 0 s

/-- Freshly allocated rows, `malloc(sizeof(struct Pixel*) * height)` followed by one
`malloc(sizeof(struct Pixel) * width)` per row; `heap` gives the indeterminate contents
of the new storage. -/
def mallocGrid (heap : Nat → Nat → Pixel) (height width : Int) : Grid :=
  (List.range height.toNat).map fun i => (List.range width.toNat).map fun j => heap i j

/-! ## Pixel transforms -/

/-- The body of `invert_pixels`: `c = c ^ 0xFF` on the three channels. -/
def invertPixel (p : Pixel) : Pixel :=
  let p := { p with red := (p.red ^^^ 0xFF) % 256 }
  let p := { p with green := (p.green ^^^ 0xFF) % 256 }
  { p with blue := (p.blue ^^^ 0xFF) % 256 }

/-- The function `invert_pixels`. -/
def invert_pixels (pixels : Grid) (height width : Int) : Option Grid :=
  forEachPixel height width (fun i j pixels => modifyPixel pixels i j invertPixel) pixels

/-- The bit pattern of `~x` for a 32-bit `int` whose bit pattern is `x`. -/
def complement32 (x : Nat) : Nat := 0xFFFFFFFF - x % 2 ^ 32

/-- The statement `c &= ~(1 << k)` on one `unsigned char` channel holding `v`. The
channel is promoted to `int`, so the operation is on 32-bit patterns; the shift is
defined in C for `k ≤ 30`. -/
def clearBitChannel (k v : Nat) : Nat := (v &&& complement32 (1 <<< k)) % 256

/-- The body of the `k` loop of `quantize_pixels`: `c &= ~(1 << k)` on the three
channels. -/
def clearBit (k : Nat) (p : Pixel) : Pixel :=
  let p := { p with red := clearBitChannel k p.red }
  let p := { p with green := clearBitChannel k p.green }
  { p with blue := clearBitChannel k p.blue }

/-- The `k` loop of `quantize_pixels` run on one channel for `k = 0, ..., level - 1`. -/
def quantizeChannel : Nat → Nat → Nat
  | 0, v => v
  | level + 1, v => clearBitChannel level (quantizeChannel level v)

/-- The `k` loop of `quantize_pixels` run on one pixel for `k = 0, ..., level - 1`. -/
def quantizePixel : Nat → Pixel → Pixel
  | 0, p => p
  | level + 1, p => clearBit level (quantizePixel level p)

/-- The function `quantize_pixels`. -/
def quantize_pixels (pixels : Grid) (height width quantization_level : Int) :
    Option Grid :=
  forEachPixel height width
    (fun i j pixels =>
      forUp (fun k pixels => modifyPixel pixels i j (clearBit k))
        quantization_level.toNat 0 pixels)
    pixels

/-- The function `remove_red_pixels`. -/
def remove_red_pixels (pixels : Grid) (height width : Int) : Option Grid :=
  forEachPixel height width
    (fun i j pixels => modifyPixel pixels i j fun p => { p with red := 0 }) pixels

/-- The function `remove_green_pixels`. -/
def remove_green_pixels (pixels : Grid) (height width : Int) : Option Grid :=
  forEachPixel height width
    (fun i j pixels => modifyPixel pixels i j fun p => { p with green := 0 }) pixels

/-- The function `remove_blue_pixels`. -/
def remove_blue_pixels (pixels : Grid) (height width : Int) : Option Grid :=
  forEachPixel height width
    (fun i j pixels => modifyPixel pixels i j fun p => { p with blue := 0 }) pixels

/-- The three channel assignments `dst.blue = src.blue; dst.green = src.green;
dst.red = src.red` of `flip_horizontal_pixels`. -/
def copyChannels (src dst : Pixel) : Pixel :=
  let dst := { dst with blue := src.blue }
  let dst := { dst with green := src.green }
  { dst with red := src.red }

/-- The inner loop of the first pass of `flip_horizontal_pixels` on row `i`: `j` runs
from `width - 1` down to `0` while `reversedWidth`, the second component of the state,
runs up from `0`. -/
def reverseRow (pixels : Grid) (width : Int) (i : Nat) (pixelsReversed : Grid) :
    Option Grid :=
  (forDown
    (fun j (st : Grid × Nat) =>
      (readPixel pixels i j).bind fun src =>
        (modifyPixel st.1 i st.2 (copyChannels src)).map fun r => (r, st.2 + 1))
    width.toNat (pixelsReversed, 0)).map Prod.fst

/-- The function `flip_horizontal_pixels`; `heap` is the indeterminate initial content
of the scratch array `pixelsReversed`. -/
def flip_horizontal_pixels (heap : Nat → Nat → Pixel) (pixels : Grid)
    (height width : Int) : Option Grid :=
  let pixelsReversed := mallocGrid heap height width
  (forUp (fun i pixelsReversed => reverseRow pixels width i pixelsReversed)
    height.toNat 0 pixelsReversed).bind fun pixelsReversed =>
  forEachPixel height width
    (fun i j pixels =>
      (readPixel pixelsReversed i j).bind fun src =>
        modifyPixel pixels i j (copyChannels src))
    pixels

/-! ## Codec -/

/-- Conversion of an `int` to `unsigned char`. -/
def toUChar (x : Int) : Nat := (x % 256).toNat

/-- The C expression `x >> n` on an `int`: the arithmetic shift. -/
def shr (x : Int) (n : Nat) : Int := Int.shiftRight x n

/-- The four bytes of a 32-bit `int` as they lie in memory (little-endian host). -/
def int32Bytes (x : Int) : List Nat :=
  [toUChar x, toUChar (shr x 8), toUChar (shr x 16), toUChar (shr x 24)]

/-- The 32-bit two's-complement `int` whose four bytes in memory are `bs`. -/
def bytesToInt32 (bs : List Nat) : Int :=
  match bs with
  | [b0, b1, b2, b3] =>
    let u : Int := b0 + 256 * b1 + 65536 * b2 + 16777216 * b3
    if u < 2147483648 then u else u - 4294967296
  | _ => 0

/-- An open stream: the bytes of the file and the current position. -/
structure FILE where
  content : List Nat
  pos : Nat
  deriving DecidableEq

/-- The call `fseek(fp, offset, SEEK_CUR)` with a non-negative offset. -/
def fseek (fp : FILE) (offset : Nat) : FILE :=
  { fp with pos := fp.pos + offset }

/-- The call `fread(&x, 4, 1, fp)` on an `int x` holding `old`: the bytes that are left
in the file, at most four, overwrite the first bytes of `x` and the position advances
by their number. The return value of `fread` is not used by the program. -/
def freadInt (fp : FILE) (old : Int) : Int × FILE :=
  let got := (fp.content.drop fp.pos).take 4
  let mem := got ++ (int32Bytes old).drop got.length
  (bytesToInt32 mem, { fp with pos := fp.pos + got.length })

/-- The call `fread(&(pixels[i][j].c), 1, 1, fp)` for the channel `c` that `store`
assigns: when a byte is left in the file it is stored in the channel, through a
bounds-checked access to the pixel, and the position advances by one; at the end of the
file nothing is read and nothing is stored. -/
def freadChannel (store : Pixel → Nat → Pixel) (i j : Nat) (st : Grid × FILE) :
    Option (Grid × FILE) :=
  match st.2.content[st.2.pos]? with
  | some b =>
    (modifyPixel st.1 i j fun p => store p b).map fun g =>
      (g, { st.2 with pos := st.2.pos + 1 })
  | none => some st

/-- The body of the pixel loop of `load_image`: the three calls of `fread` on the pixel
at `(i, j)`, in the order blue, green, red. The state is the pixel array and the
stream. -/
def loadPixel (i j : Nat) (st : Grid × FILE) : Option (Grid × FILE) :=
  (freadChannel (fun p b => { p with blue := b }) i j st).bind fun st =>
    (freadChannel (fun p b => { p with green := b }) i j st).bind fun st =>
      freadChannel (fun p b => { p with red := b }) i j st

/-- The outcome of the calls of `malloc` in `load_image`, whose results the program
does not test: `rows` tells whether the allocation of the row array
`image_ptr->pixels` returns a non-null pointer, `row i` whether the allocation of the
row `image_ptr->pixels[i]` does. -/
structure Allocator where
  rows : Bool
  row : Nat → Bool

/-- The allocator whose every call succeeds. -/
def allocAll : Allocator := { rows := true, row := fun _ => true }

/-- The assignment `pixels[i] = row` of a row pointer, bounds-checked: a null row array
has no entry to assign to. -/
def storeRow (pixels : Grid) (i : Nat) (row : List Pixel) : Option Grid :=
  if i < pixels.length then some (pixels.set i row) else none

/-- The allocations of `load_image`: `malloc(sizeof(struct Pixel*) * height)` for the row
array, then `pixels[i] = malloc(sizeof(struct Pixel) * width)` for `i < height`. A null
row array is the empty list; a row that is null or not yet assigned is the empty row, so
that every access through it is out of bounds. `heap` gives the indeterminate contents
of the rows that are allocated. -/
def allocPixels (alloc : Allocator) (heap : Nat → Nat → Pixel) (height width : Int) :
    Option Grid :=
  let pixels : Grid := if alloc.rows then List.replicate height.toNat [] else []
  forUp
    (fun i pixels =>
      storeRow pixels i
        (if alloc.row i then (List.range width.toNat).map fun j => heap i j else []))
    height.toNat 0 pixels

/-- The function `load_image`. `file` is the content of the file named by the user,
`none` when `fopen` fails; `image` is the content of `*image_ptr` on entry, `heap` the
indeterminate content of the allocated pixel rows and `alloc` the outcome of the calls
of `malloc`. The result is the return value and the content of `*image_ptr` on exit;
it is `none` when the function stores through a null pointer. -/
def load_image (file : Option (List Nat)) (image : RGB_Image)
    (heap : Nat → Nat → Pixel) (alloc : Allocator) : Option (Nat × RGB_Image) :=
  match file with
  | none => some (FAIL, image)
  | some content =>
    let fp : FILE := { content := content, pos := 0 }
    let fp := fseek fp 2
    let rs := freadInt fp image.size
    let fp := fseek rs.2 12
    let rw := freadInt fp image.width
    let rh := freadInt rw.2 image.height
    let fp := fseek rh.2 28
    let size := rs.1
    let width := rw.1
    let height := rh.1
    (allocPixels alloc heap height width).bind fun pixels =>
      (forEachPixel height width loadPixel (pixels, fp)).map fun st =>
        (SUCCESS, { height := height, width := width, size := size, pixels := st.1 })

/-- The array `bmp_header` of `save_image`: 54 `unsigned char` entries. The difference
`image.size - 40` is taken in `Int`; its four bytes are those of the wrapped 32-bit
difference, because a multiple of `2 ^ 32` does not change them. -/
def bmp_header (image : RGB_Image) : List Nat :=
  let image_datasize := image.size - 40
  [0x42, 0x4D,
   toUChar image.size, toUChar (shr image.size 8), toUChar (shr image.size 16),
   toUChar (shr image.size 24),
   0x00, 0x00, 0x00, 0x00,
   0x36, 0x00, 0x00, 0x00,
   0x28, 0x00, 0x00, 0x00,
   toUChar image.width, toUChar (shr image.width 8), toUChar (shr image.width 16),
   toUChar (shr image.width 24),
   toUChar image.height, toUChar (shr image.height 8), toUChar (shr image.height 16),
   toUChar (shr image.height 24),
   0x01, 0x00, 0x18, 0x00,
   0x00, 0x00, 0x00, 0x00,
   toUChar image_datasize, toUChar (shr image_datasize 8),
   toUChar (shr image_datasize 16), toUChar (shr image_datasize 24),
   0x00, 0x00, 0x00, 0x00,
   0x00, 0x00, 0x00, 0x00,
   0x00, 0x00, 0x00, 0x00,
   0x00, 0x00, 0x00, 0x00]

/-- The function `save_image`. `writable` tells whether `fopen` succeeds. The result is
the return value and the content of the file written, `none` when no file is written. -/
def save_image (writable : Bool) (image : RGB_Image) :
    Option (Nat × Option (List Nat)) :=
  if writable then
    (forEachPixel image.height image.width
      (fun i j (out : List Nat) =>
        (readPixel image.pixels i j).map fun p => out ++ [p.blue] ++ [p.green] ++ [p.red])
      ((bmp_header image).take 54)).map fun out => (SUCCESS, some out)
  else
    some (FAIL, none)

/-- The function `save_image_copy`. `file`, `image`, `heap` and `alloc` are as in
`load_image` (`image` is the uninitialised local variable), `writable` as in
`save_image`. The result is the content of the file written, `none` when no file is
written. -/
def save_image_copy (file : Option (List Nat)) (image : RGB_Image)
    (heap : Nat → Nat → Pixel) (alloc : Allocator) (writable : Bool) :
    Option (Option (List Nat)) :=
  (load_image file image heap alloc).bind fun r =>
    if r.1 = 0 then (save_image writable r.2).map fun w => w.2 else some none

/-! ## Prompted operations -/

/-- The `do ... while (choice < 1 || choice > 3)` loop of `remove_image_channel`, entered
with `choice` and the integers still to be read by `scanf("%d", &choice)`. Each
iteration reads one integer into `choice`; at the end of the input `scanf` leaves
`choice` unchanged, so the loop exits if `choice` is in range and otherwise never exits,
which is the result `none`. The result is the value of `choice` on exit. -/
def channelPrompt (choice : Int) : List Int → Option Int
  | [] => if choice < 1 ∨ choice > 3 then none else some choice
  | x :: rest => if x < 1 ∨ x > 3 then channelPrompt x rest else some x

/-- The `do ... while (choice < 0 || choice > 7)` loop of `quantize_image`, as
`channelPrompt`. -/
def levelPrompt (choice : Int) : List Int → Option Int
  | [] => if choice < 0 ∨ choice > 7 then none else some choice
  | x :: rest => if x < 0 ∨ x > 7 then levelPrompt x rest else some x

/-- The `if (choice == RED) ... else if (choice == GREEN) ... else if (choice == BLUE)`
chain of `remove_image_channel`. -/
def removeChosenChannel (choice : Int) (pixels : Grid) (height width : Int) :
    Option Grid :=
  if choice = RED then remove_red_pixels pixels height width
  else if choice = GREEN then remove_green_pixels pixels height width
  else if choice = BLUE then remove_blue_pixels pixels height width
  else some pixels

/-- The function `remove_image_channel`. `file`, `image`, `heap`, `alloc` and `writable`
are as in `save_image_copy`, `input` holds the integers entered at the prompt. The
result is the content of the file written, `none` when no file is written. -/
def remove_image_channel (file : Option (List Nat)) (image : RGB_Image)
    (heap : Nat → Nat → Pixel) (alloc : Allocator) (input : List Int) (writable : Bool) :
    Option (Option (List Nat)) :=
  (load_image file image heap alloc).bind fun r =>
    if r.1 = 0 then
      (channelPrompt 1 input).bind fun choice =>
        (removeChosenChannel choice r.2.pixels r.2.height r.2.width).bind fun pixels =>
          (save_image writable { r.2 with pixels := pixels }).map fun w => w.2
    else some none

/-- The function `quantize_image`, with the parameters of `remove_image_channel`. -/
def quantize_image (file : Option (List Nat)) (image : RGB_Image)
    (heap : Nat → Nat → Pixel) (alloc : Allocator) (input : List Int) (writable : Bool) :
    Option (Option (List Nat)) :=
  (load_image file image heap alloc).bind fun r =>
    if r.1 = 0 then
      (levelPrompt 1 input).bind fun choice =>
        (quantize_pixels r.2.pixels r.2.height r.2.width choice).bind fun pixels =>
          (save_image writable { r.2 with pixels := pixels }).map fun w => w.2
    else some none

/-! ## Vocabulary of the statements -/

/-- The 2x2 grid of the worked scenario. -/
def sampleGrid : Grid :=
  [[⟨10, 20, 30⟩, ⟨40, 50, 60⟩], [⟨70, 80, 90⟩, ⟨100, 110, 120⟩]]

/-- The loop body `body i j` updates exactly the pixel at `(i, j)` of a grid of `h` rows
by `w` columns, by `f i j`, and keeps the shape. -/
def ActsAt (body : Nat → Nat → Grid → Option Grid) (f : Nat → Nat → Pixel → Pixel)
    (h w : Nat) : Prop :=
  ∀ g i j, Shape g h w → i < h → j < w →
    ∃ g', body i j g = some g' ∧ Shape g' h w ∧
      ∀ a b, readPixel g' a b =
        if a = i ∧ b = j then (readPixel g a b).map (f i j) else readPixel g a b

/-- The little-endian signed 32-bit field of a file at a byte offset. -/
def fieldAt (content : List Nat) (offset : Nat) : Int :=
  bytesToInt32 ((content.drop offset).take 4)

/-- The pixel whose blue, green and red bytes lie, in this order, at the offset
`54 + 3 * (i * width + j)` of a file. -/
def pixelAt (content : List Nat) (width i j : Nat) : Pixel :=
  { red := content.getD (54 + 3 * (i * width + j) + 2) 0
    green := content.getD (54 + 3 * (i * width + j) + 1) 0
    blue := content.getD (54 + 3 * (i * width + j)) 0 }

/-- A 57-byte file of one pixel whose header carries size 57, width 1, height 1 and
differs from the header `save_image` writes only in the two resolution fields at the
offsets 38 and 42, which hold 2835 here. -/
def resolutionFile : List Nat :=
  [0x42, 0x4D, 57, 0, 0, 0, 0, 0, 0, 0, 0x36, 0, 0, 0, 0x28, 0, 0, 0,
   1, 0, 0, 0, 1, 0, 0, 0, 1, 0, 0x18, 0, 0, 0, 0, 0, 17, 0, 0, 0,
   0x13, 0x0B, 0, 0, 0x13, 0x0B, 0, 0, 0, 0, 0, 0, 0, 0, 0, 0,
   30, 20, 10]

/-- A 58-byte file of one pixel: the header `save_image` writes for size 58, width 1
and height 1, the three bytes of the pixel, and one byte of row padding. -/
def paddedFile : List Nat :=
  [0x42, 0x4D, 58, 0, 0, 0, 0, 0, 0, 0, 0x36, 0, 0, 0, 0x28, 0, 0, 0,
   1, 0, 0, 0, 1, 0, 0, 0, 1, 0, 0x18, 0, 0, 0, 0, 0, 18, 0, 0, 0,
   0, 0, 0, 0, 0, 0, 0, 0, 0, 0, 0, 0, 0, 0, 0, 0,
   30, 20, 10, 0]

/-- The entry `c` of `input` is the first one in the range `lo..hi`: every entry before
it is out of the range. -/
def FirstInRange (lo hi : Int) (input : List Int) (c : Int) : Prop :=
  ∃ pre post, input = pre ++ c :: post ∧ (∀ x ∈ pre, x < lo ∨ x > hi) ∧ lo ≤ c ∧ c ≤ hi

/-- A complete 54-byte file whose header carries width 0 and height 0. -/
def emptyImageFile : List Nat :=
  [0x42, 0x4D, 54, 0, 0, 0, 0, 0, 0, 0, 0x36, 0, 0, 0, 0x28, 0, 0, 0,
   0, 0, 0, 0, 0, 0, 0, 0, 1, 0, 0x18, 0, 0, 0, 0, 0, 14, 0, 0, 0,
   0, 0, 0, 0, 0, 0, 0, 0, 0, 0, 0, 0, 0, 0, 0, 0]

/-- A complete 54-byte file whose header carries width -1 and height 2. -/
def negativeWidthFile : List Nat :=
  [0x42, 0x4D, 54, 0, 0, 0, 0, 0, 0, 0, 0x36, 0, 0, 0, 0x28, 0, 0, 0,
   255, 255, 255, 255, 2, 0, 0, 0, 1, 0, 0x18, 0, 0, 0, 0, 0, 14, 0, 0, 0,
   0, 0, 0, 0, 0, 0, 0, 0, 0, 0, 0, 0, 0, 0, 0, 0]

/-- The allocations that `load_image` stores through succeed for an image of `h` rows of
`w` pixels: the row array when `h > 0`, and every row `i < h` when `w > 0`. -/
def AllocOK (alloc : Allocator) (h w : Nat) : Prop :=
  (0 < h → alloc.rows = true) ∧ (0 < w → ∀ i, i < h → alloc.row i = true)

instance (alloc : Allocator) (h w : Nat) : Decidable (AllocOK alloc h w) := by
  unfold AllocOK; infer_instance

/-- A complete 54-byte file whose header carries width 0 and height 2147483647. -/
def hugeHeightFile : List Nat :=
  [0x42, 0x4D, 54, 0, 0, 0, 0, 0, 0, 0, 0x36, 0, 0, 0, 0x28, 0, 0, 0,
   0, 0, 0, 0, 255, 255, 255, 127, 1, 0, 0x18, 0, 0, 0, 0, 0, 14, 0, 0, 0,
   0, 0, 0, 0, 0, 0, 0, 0, 0, 0, 0, 0, 0, 0, 0, 0]

/-- The channel value `v'` is `v` with the bits `0, ..., L - 1` cleared and every other
bit unchanged. -/
def LowBitsCleared (L v v' : Nat) : Prop :=
  (∀ k, k < L → v'.testBit k = false) ∧ (∀ k, L ≤ k → v'.testBit k = v.testBit k)

/-- The number of set bits among the eight bits of an `unsigned char`. -/
def setBits (v : Nat) : Nat := (List.range 8).countP fun k => v.testBit k

/-! ## Loops and memory: general facts -/

theorem forUp_inv {σ : Type} (body : Nat → σ → Option σ) (Inv : Nat → σ → Prop) :
    ∀ (n i0 : Nat) (s : σ), Inv i0 s →
      (∀ k t, i0 ≤ k → k < i0 + n → Inv k t → ∃ t', body k t = some t' ∧ Inv (k + 1) t') →
      ∃ s', forUp body n i0 s = some s' ∧ Inv (i0 + n) s'
  | 0, i0, s, h0, _ => ⟨s, rfl, by simpa using h0⟩
  | n + 1, i0, s, h0, hstep => by
    obtain ⟨t, ht, hInv⟩ := hstep i0 s (le_refl _) (by omega) h0
    obtain ⟨s', hs', hI⟩ := forUp_inv body Inv n (i0 + 1) t hInv
      (fun k u hk hk' hu => hstep k u (by omega) (by omega) hu)
    refine ⟨s', by simp [forUp, ht, hs'], ?_⟩
    rwa [show i0 + (n + 1) = i0 + 1 + n by omega]

theorem forDown_inv {σ : Type} (body : Nat → σ → Option σ) (Inv : Nat → σ → Prop) :
    ∀ (n : Nat) (s : σ), Inv n s →
      (∀ k t, k < n → Inv (k + 1) t → ∃ t', body k t = some t' ∧ Inv k t') →
      ∃ s', forDown body n s = some s' ∧ Inv 0 s'
  | 0, s, h0, _ => ⟨s, rfl, h0⟩
  | n + 1, s, h0, hstep => by
    obtain ⟨t, ht, hInv⟩ := hstep n s (by omega) h0
    obtain ⟨s', hs', hI⟩ := forDown_inv body Inv n t hInv
      (fun k u hk hu => hstep k u (by omega) hu)
    exact ⟨s', by simp [forDown, ht, hs'], hI⟩

theorem forEachPixel_inv {σ : Type} (body : Nat → Nat → σ → Option σ)
    (Inv : Nat → Nat → σ → Prop) (h w : Nat) (s : σ) (h0 : Inv 0 0 s)
    (hstep : ∀ i j t, i < h → j < w → Inv i j t →
      ∃ t', body i j t = some t' ∧ Inv i (j + 1) t')
    (hrow : ∀ i t, i < h → Inv i w t → Inv (i + 1) 0 t) :
    ∃ s', forEachPixel (h : Int) (w : Int) body s = some s' ∧ Inv h 0 s' := by
  have key := forUp_inv (fun i s => forUp (fun j s => body i j s) w 0 s)
    (fun i t => Inv i 0 t) h 0 s h0 (by
      intro i t _ hi hI
      obtain ⟨t', ht', hI'⟩ := forUp_inv (fun j s => body i j s) (fun j t => Inv i j t)
        w 0 t hI (fun j u _ hj hu => hstep i j u (by omega) (by omega) hu)
      exact ⟨t', ht', hrow i t' (by omega) (by simpa using hI')⟩)
  simpa [forEachPixel] using key

theorem Shape.getRow {g : Grid} {h w : Nat} (hs : Shape g h w) {i : Nat} (hi : i < h) :
    ∃ row, g[i]? = some row ∧ row.length = w := by
  have hlt : i < g.length := by rw [hs.1]; exact hi
  exact ⟨g[i], List.getElem?_eq_getElem hlt, hs.2 _ (List.getElem_mem hlt)⟩

theorem readPixel_isSome {g : Grid} {h w : Nat} (hs : Shape g h w) {i j : Nat}
    (hi : i < h) (hj : j < w) : ∃ p, readPixel g i j = some p := by
  obtain ⟨row, hrow, hlen⟩ := hs.getRow hi
  have hlt : j < row.length := by rw [hlen]; exact hj
  exact ⟨row[j], by simp [readPixel, hrow, List.getElem?_eq_getElem hlt]⟩

theorem readPixel_none {g : Grid} {h w : Nat} (hs : Shape g h w) {i j : Nat}
    (hij : h ≤ i ∨ w ≤ j) : readPixel g i j = none := by
  by_cases hi : i < h
  · obtain ⟨row, hrow, hlen⟩ := hs.getRow hi
    have hj : row.length ≤ j := by omega
    simp [readPixel, hrow, List.getElem?_eq_none hj]
  · have : g.length ≤ i := by rw [hs.1]; omega
    simp [readPixel, List.getElem?_eq_none this]

theorem modifyPixel_spec {g : Grid} {h w : Nat} (hs : Shape g h w) {i j : Nat}
    (hi : i < h) (hj : j < w) (f : Pixel → Pixel) :
    ∃ g', modifyPixel g i j f = some g' ∧ Shape g' h w ∧
      ∀ a b, readPixel g' a b =
        if a = i ∧ b = j then (readPixel g a b).map f else readPixel g a b := by
  obtain ⟨row, hrow, hlen⟩ := hs.getRow hi
  have hlt : j < row.length := by rw [hlen]; exact hj
  have hil : i < g.length := by rw [hs.1]; exact hi
  refine ⟨g.set i (row.set j (f row[j])), ?_, ?_, ?_⟩
  · simp [modifyPixel, hrow, List.getElem?_eq_getElem hlt]
  · refine ⟨by rw [List.length_set]; exact hs.1, ?_⟩
    intro r hr
    rcases List.mem_or_eq_of_mem_set hr with hr | hr
    · exact hs.2 r hr
    · rw [hr, List.length_set]; exact hlen
  · intro a b
    by_cases ha : a = i
    · subst ha
      by_cases hb : b = j
      · subst hb
        simp [readPixel, hrow, List.getElem?_set, hil, hlt]
      · have hb' : j ≠ b := fun e => hb e.symm
        simp [readPixel, hrow, List.getElem?_set, hil, hb, hb']
    · have ha' : i ≠ a := fun e => ha e.symm
      simp [readPixel, List.getElem?_set, ha, ha']

theorem grid_ext {g g' : Grid} {h w : Nat} (hs : Shape g h w) (hs' : Shape g' h w)
    (hread : ∀ a b, a < h → b < w → readPixel g a b = readPixel g' a b) : g = g' := by
  apply List.ext_getElem?
  intro a
  by_cases ha : a < h
  · obtain ⟨row, hrow, hlen⟩ := hs.getRow ha
    obtain ⟨row', hrow', hlen'⟩ := hs'.getRow ha
    rw [hrow, hrow']
    congr 1
    apply List.ext_getElem?
    intro b
    by_cases hb : b < w
    · have := hread a b ha hb
      simpa [readPixel, hrow, hrow'] using this
    · rw [List.getElem?_eq_none (by omega), List.getElem?_eq_none (by omega)]
  · rw [List.getElem?_eq_none (by rw [hs.1]; omega),
      List.getElem?_eq_none (by rw [hs'.1]; omega)]

theorem forEachPixel_pointwise {body : Nat → Nat → Grid → Option Grid}
    {f : Nat → Nat → Pixel → Pixel} {h w : Nat} (hb : ActsAt body f h w) {g : Grid}
    (hs : Shape g h w) :
    ∃ g', forEachPixel (h : Int) (w : Int) body g = some g' ∧ Shape g' h w ∧
      ∀ a b, a < h → b < w → readPixel g' a b = (readPixel g a b).map (f a b) := by
  obtain ⟨g', hg', hS, hR⟩ := forEachPixel_inv body
    (fun i j t => Shape t h w ∧ ∀ a b, readPixel t a b =
      if a < i ∨ (a = i ∧ b < j) then (readPixel g a b).map (f a b) else readPixel g a b)
    h w g ⟨hs, by intro a b; simp⟩
    (by
      intro i j t hi hj hI
      obtain ⟨t', ht', hS', hR'⟩ := hb t i j hI.1 hi hj
      refine ⟨t', ht', hS', ?_⟩
      intro a b
      rw [hR' a b]
      by_cases hab : a = i ∧ b = j
      · obtain ⟨rfl, rfl⟩ := hab
        simp [hI.2 a b]
      · rw [if_neg hab, hI.2 a b]
        have : (a < i ∨ (a = i ∧ b < j + 1)) ↔ (a < i ∨ (a = i ∧ b < j)) := by omega
        simp only [this])
    (by
      intro i t hi hI
      refine ⟨hI.1, ?_⟩
      intro a b
      rw [hI.2 a b]
      by_cases hc : a < i ∨ (a = i ∧ b < w)
      · have : a < i + 1 ∨ (a = i + 1 ∧ b < 0) := by omega
        rw [if_pos hc, if_pos this]
      · by_cases hc' : a < i + 1 ∨ (a = i + 1 ∧ b < 0)
        · rw [if_neg hc, if_pos hc', readPixel_none hs (by omega)]
          rfl
        · rw [if_neg hc, if_neg hc'])
  refine ⟨g', hg', hS, ?_⟩
  intro a b ha _
  rw [hR a b, if_pos (Or.inl ha)]

theorem shape_map {g : Grid} {h w : Nat} (hs : Shape g h w) (f : Pixel → Pixel) :
    Shape (g.map (List.map f)) h w := by
  refine ⟨by rw [List.length_map]; exact hs.1, ?_⟩
  intro r hr
  obtain ⟨r0, hr0, rfl⟩ := List.mem_map.mp hr
  rw [List.length_map]
  exact hs.2 r0 hr0

theorem readPixel_map (g : Grid) (f : Pixel → Pixel) (a b : Nat) :
    readPixel (g.map (List.map f)) a b = (readPixel g a b).map f := by
  unfold readPixel
  rw [List.getElem?_map]
  cases g[a]? with
  | none => rfl
  | some row => simp [List.getElem?_map]

theorem readPixel_mem {g : Grid} {i j : Nat} {p : Pixel} (hp : readPixel g i j = some p) :
    ∃ row ∈ g, p ∈ row := by
  unfold readPixel at hp
  cases hrow : g[i]? with
  | none => rw [hrow] at hp; cases hp
  | some row =>
    rw [hrow] at hp
    exact ⟨row, List.getElem?_mem hrow, List.getElem?_mem hp⟩

theorem modify_actsAt (f : Pixel → Pixel) (h w : Nat) :
    ActsAt (fun i j pixels => modifyPixel pixels i j f) (fun _ _ => f) h w :=
  fun _ _ _ hs hi hj => modifyPixel_spec hs hi hj f

theorem forEachPixel_eq_map {body : Nat → Nat → Grid → Option Grid} {f : Pixel → Pixel}
    {h w : Nat} (hb : ActsAt body (fun _ _ => f) h w) {g : Grid} (hs : Shape g h w) :
    forEachPixel (h : Int) (w : Int) body g = some (g.map (List.map f)) := by
  obtain ⟨g', hg', hS, hR⟩ := forEachPixel_pointwise hb hs
  rw [hg']
  congr 1
  apply grid_ext hS (shape_map hs f)
  intro a b ha hb'
  rw [hR a b ha hb', readPixel_map]

/-! ## Inversion -/

theorem invert_pixels_eq_map {g : Grid} {h w : Nat} (hs : Shape g h w) :
    invert_pixels g h w = some (g.map (List.map invertPixel)) :=
  forEachPixel_eq_map (modify_actsAt invertPixel h w) hs

set_option maxRecDepth 100000 in
theorem xor_byte : ∀ v, v < 256 →
    (v ^^^ 0xFF) % 256 = v ^^^ 0xFF ∧ v ^^^ 0xFF = 255 - v ∧
      ((v ^^^ 0xFF) % 256 ^^^ 0xFF) % 256 = v := by
  decide

theorem invertPixel_invertPixel {p : Pixel} (hp : p.IsByte) :
    invertPixel (invertPixel p) = p := by
  obtain ⟨hr, hg, hb⟩ := hp
  cases p
  simp only [invertPixel]
  simp [(xor_byte _ hr).2.2, (xor_byte _ hg).2.2, (xor_byte _ hb).2.2]

/-- C2: on a grid of `h` rows by `w` pixels of `unsigned char` channels, `invert_pixels`
returns a grid in which every channel of the pixel at every position `(i, j)` is the
original channel at the same position XOR `0xFF`, which is `255` minus the original
value; the 2x2 scenario grid becomes the grid given in the specification. -/
theorem invert_pixels_spec (g : Grid) (h w : Nat) (hs : Shape g h w) (hb : ByteGrid g) :
    ∃ g', invert_pixels g h w = some g' ∧
      (∀ i j, i < h → j < w → ∃ p p', readPixel g i j = some p ∧
        readPixel g' i j = some p' ∧
        p'.red = p.red ^^^ 0xFF ∧ p'.red = 255 - p.red ∧
        p'.green = p.green ^^^ 0xFF ∧ p'.green = 255 - p.green ∧
        p'.blue = p.blue ^^^ 0xFF ∧ p'.blue = 255 - p.blue) ∧
      invert_pixels sampleGrid 2 2 =
        some [[⟨245, 235, 225⟩, ⟨215, 205, 195⟩], [⟨185, 175, 165⟩, ⟨155, 145, 135⟩]] := by
  refine ⟨_, invert_pixels_eq_map hs, ?_, by decide⟩
  intro i j hi hj
  obtain ⟨p, hp⟩ := readPixel_isSome hs hi hj
  obtain ⟨row, hrow, hmem⟩ := readPixel_mem hp
  obtain ⟨hr, hg, hbl⟩ := hb row hrow p hmem
  refine ⟨p, invertPixel p, hp, by rw [readPixel_map, hp]; rfl, ?_⟩
  have h1 := xor_byte _ hr
  have h2 := xor_byte _ hg
  have h3 := xor_byte _ hbl
  simp only [invertPixel]
  refine ⟨h1.1, ?_, h2.1, ?_, h3.1, ?_⟩
  · rw [h1.1]; exact h1.2.1
  · rw [h2.1]; exact h2.2.1
  · rw [h3.1]; exact h3.2.1

theorem invert_pixels_spec_witness :
    ∃ g', invert_pixels sampleGrid (2 : Nat) (2 : Nat) = some g' ∧
      (∀ i j, i < 2 → j < 2 → ∃ p p', readPixel sampleGrid i j = some p ∧
        readPixel g' i j = some p' ∧
        p'.red = p.red ^^^ 0xFF ∧ p'.red = 255 - p.red ∧
        p'.green = p.green ^^^ 0xFF ∧ p'.green = 255 - p.green ∧
        p'.blue = p.blue ^^^ 0xFF ∧ p'.blue = 255 - p.blue) ∧
      invert_pixels sampleGrid 2 2 =
        some [[⟨245, 235, 225⟩, ⟨215, 205, 195⟩], [⟨185, 175, 165⟩, ⟨155, 145, 135⟩]] :=
  invert_pixels_spec sampleGrid 2 2 (by decide) (by decide)

/-- C3: on a grid of `h` rows by `w` pixels of `unsigned char` channels, `invert_pixels`
applied to its own result returns the original grid. -/
theorem invert_pixels_involution (g : Grid) (h w : Nat) (hs : Shape g h w)
    (hb : ByteGrid g) :
    ∃ g1, invert_pixels g h w = some g1 ∧ invert_pixels g1 h w = some g := by
  refine ⟨_, invert_pixels_eq_map hs, ?_⟩
  rw [invert_pixels_eq_map (shape_map hs invertPixel), List.map_map]
  congr 1
  conv_rhs => rw [← List.map_id g]
  apply List.map_congr_left
  intro row hrow
  rw [Function.comp_apply, List.map_map]
  conv_rhs => rw [id, ← List.map_id row]
  apply List.map_congr_left
  intro p hp
  exact invertPixel_invertPixel (hb row hrow p hp)

theorem invert_pixels_involution_witness :
    ∃ g1, invert_pixels sampleGrid (2 : Nat) (2 : Nat) = some g1 ∧
      invert_pixels g1 (2 : Nat) (2 : Nat) = some sampleGrid :=
  invert_pixels_involution sampleGrid 2 2 (by decide) (by decide)

/-! ## Quantization -/

theorem quantize_actsAt (n h w : Nat) :
    ActsAt (fun i j pixels => forUp (fun k pixels => modifyPixel pixels i j (clearBit k))
      n 0 pixels) (fun _ _ => quantizePixel n) h w := by
  intro g i j hs hi hj
  have key := forUp_inv (fun k pixels => modifyPixel pixels i j (clearBit k))
    (fun k t => Shape t h w ∧ ∀ a b, readPixel t a b =
      if a = i ∧ b = j then (readPixel g a b).map (quantizePixel k) else readPixel g a b)
    n 0 g ⟨hs, by
      intro a b
      have hid : quantizePixel 0 = id := by funext p; rfl
      rw [hid, Option.map_id]
      simp⟩
    (by
      intro k t _ _ hI
      obtain ⟨t', ht', hS', hR'⟩ := modifyPixel_spec hI.1 hi hj (clearBit k)
      refine ⟨t', ht', hS', ?_⟩
      intro a b
      rw [hR' a b, hI.2 a b]
      by_cases hab : a = i ∧ b = j
      · rw [if_pos hab, if_pos hab, if_pos hab, Option.map_map]
        rfl
      · rw [if_neg hab, if_neg hab, if_neg hab])
  simpa using key

theorem quantize_pixels_eq_map {g : Grid} {h w : Nat} (hs : Shape g h w) (L : Int) :
    quantize_pixels g h w L = some (g.map (List.map (quantizePixel L.toNat))) :=
  forEachPixel_eq_map (quantize_actsAt L.toNat h w) hs

theorem quantizePixel_channels (n : Nat) (p : Pixel) :
    (quantizePixel n p).red = quantizeChannel n p.red ∧
      (quantizePixel n p).green = quantizeChannel n p.green ∧
      (quantizePixel n p).blue = quantizeChannel n p.blue := by
  induction n with
  | zero => exact ⟨rfl, rfl, rfl⟩
  | succ n ih =>
    obtain ⟨h1, h2, h3⟩ := ih
    simp only [quantizePixel, clearBit, quantizeChannel, h1, h2, h3, and_self]

set_option maxRecDepth 100000 in
theorem quantizeChannel_closed : ∀ l, l < 8 → ∀ v, v < 256 →
    quantizeChannel l v = v - v % 2 ^ l ∧
      quantizeChannel l v = v &&& (255 - (2 ^ l - 1)) := by
  decide

set_option maxRecDepth 100000 in
theorem quantizeChannel_idem : ∀ l, l < 8 → ∀ v, v < 256 →
    quantizeChannel l (quantizeChannel l v) = quantizeChannel l v := by
  decide

theorem mask_testBit : ∀ l, l < 8 → ∀ k, k < 8 →
    (255 - (2 ^ l - 1)).testBit k = decide (l ≤ k) := by
  decide

theorem quantizeChannel_bits {l v : Nat} (hl : l < 8) (hv : v < 256) :
    LowBitsCleared l v (quantizeChannel l v) := by
  have hk : ∀ k, (quantizeChannel l v).testBit k = (decide (l ≤ k) && v.testBit k) := by
    intro k
    rw [(quantizeChannel_closed l hl v hv).2, Nat.testBit_land]
    by_cases h8 : k < 8
    · rw [mask_testBit l hl k h8, Bool.and_comm]
    · have hlt : v < 2 ^ k :=
        lt_of_lt_of_le hv (by
          calc 256 = 2 ^ 8 := by norm_num
            _ ≤ 2 ^ k := Nat.pow_le_pow_right (by norm_num) (by omega))
      rw [Nat.testBit_lt_two_pow hlt]
      simp
  constructor
  · intro k hkl
    rw [hk k]
    simp [Nat.not_le.mpr hkl]
  · intro k hkl
    rw [hk k]
    simp [hkl]

theorem quantizeChannel_setBits {l v : Nat} (hl : l < 8) (hv : v < 256) :
    setBits (quantizeChannel l v) ≤ setBits v := by
  obtain ⟨hlow, hhigh⟩ := quantizeChannel_bits hl hv
  apply List.countP_mono_left
  intro k _ hk
  by_cases hkl : k < l
  · rw [hlow k hkl] at hk
    cases hk
  · rw [← hhigh k (by omega)]
    exact hk

theorem readPixel_byte {g : Grid} (hb : ByteGrid g) {i j : Nat} {p : Pixel}
    (hp : readPixel g i j = some p) : p.IsByte := by
  obtain ⟨row, hrow, hmem⟩ := readPixel_mem hp
  exact hb row hrow p hmem

/-- C6: on a grid of `h` rows by `w` pixels of `unsigned char` channels and for a level
`L` with `0 ≤ L ≤ 7`, `quantize_pixels` returns a grid in which every channel `v` of
every pixel has become `v` with the bits `0, ..., L - 1` cleared and the bits from `L` up
unchanged, which is `v AND NOT (2 ^ L - 1)` and also `v - v mod 2 ^ L`; at level `0` the
grid is unchanged, at level `1` an even value is unchanged and an odd value is
decremented by `1`, and `(11, 21, 31)` becomes `(10, 20, 30)`. -/
theorem quantize_pixels_spec (g : Grid) (h w L : Nat) (hs : Shape g h w)
    (hb : ByteGrid g) (hL : L ≤ 7) :
    ∃ g', quantize_pixels g h w L = some g' ∧
      (∀ i j, i < h → j < w → ∃ p p', readPixel g i j = some p ∧
        readPixel g' i j = some p' ∧
        (LowBitsCleared L p.red p'.red ∧ p'.red = p.red &&& (255 - (2 ^ L - 1)) ∧
          p'.red = p.red - p.red % 2 ^ L) ∧
        (LowBitsCleared L p.green p'.green ∧ p'.green = p.green &&& (255 - (2 ^ L - 1)) ∧
          p'.green = p.green - p.green % 2 ^ L) ∧
        (LowBitsCleared L p.blue p'.blue ∧ p'.blue = p.blue &&& (255 - (2 ^ L - 1)) ∧
          p'.blue = p.blue - p.blue % 2 ^ L) ∧
        (L = 1 →
          (p.red % 2 = 0 → p'.red = p.red) ∧ (p.red % 2 = 1 → p'.red = p.red - 1) ∧
          (p.green % 2 = 0 → p'.green = p.green) ∧
          (p.green % 2 = 1 → p'.green = p.green - 1) ∧
          (p.blue % 2 = 0 → p'.blue = p.blue) ∧
          (p.blue % 2 = 1 → p'.blue = p.blue - 1))) ∧
      (L = 0 → g' = g) ∧
      quantize_pixels [[⟨11, 21, 31⟩]] 1 1 1 = some [[⟨10, 20, 30⟩]] := by
  have hl : L < 8 := by omega
  refine ⟨_, quantize_pixels_eq_map hs L, ?_, ?_, by decide⟩
  · intro i j hi hj
    obtain ⟨p, hp⟩ := readPixel_isSome hs hi hj
    obtain ⟨hr, hg, hbl⟩ := readPixel_byte hb hp
    obtain ⟨c1, c2, c3⟩ := quantizePixel_channels L p
    have q1 := quantizeChannel_closed L hl _ hr
    have q2 := quantizeChannel_closed L hl _ hg
    have q3 := quantizeChannel_closed L hl _ hbl
    refine ⟨p, quantizePixel L p, hp, by rw [readPixel_map, hp]; rfl, ?_, ?_, ?_, ?_⟩
    · rw [c1]; exact ⟨quantizeChannel_bits hl hr, q1.2, q1.1⟩
    · rw [c2]; exact ⟨quantizeChannel_bits hl hg, q2.2, q2.1⟩
    · rw [c3]; exact ⟨quantizeChannel_bits hl hbl, q3.2, q3.1⟩
    · intro h1
      subst h1
      rw [c1, c2, c3, q1.1, q2.1, q3.1]
      simp only [pow_one]
      omega
  · intro h0
    subst h0
    have hid : quantizePixel (((0 : Nat) : Int)).toNat = id := by funext p; rfl
    rw [hid, List.map_id_fun, List.map_id]

theorem quantize_pixels_spec_witness :
    ∃ g', quantize_pixels sampleGrid (2 : Nat) (2 : Nat) (3 : Nat) = some g' ∧
      (∀ i j, i < 2 → j < 2 → ∃ p p', readPixel sampleGrid i j = some p ∧
        readPixel g' i j = some p' ∧
        (LowBitsCleared 3 p.red p'.red ∧ p'.red = p.red &&& (255 - (2 ^ 3 - 1)) ∧
          p'.red = p.red - p.red % 2 ^ 3) ∧
        (LowBitsCleared 3 p.green p'.green ∧ p'.green = p.green &&& (255 - (2 ^ 3 - 1)) ∧
          p'.green = p.green - p.green % 2 ^ 3) ∧
        (LowBitsCleared 3 p.blue p'.blue ∧ p'.blue = p.blue &&& (255 - (2 ^ 3 - 1)) ∧
          p'.blue = p.blue - p.blue % 2 ^ 3) ∧
        (3 = 1 →
          (p.red % 2 = 0 → p'.red = p.red) ∧ (p.red % 2 = 1 → p'.red = p.red - 1) ∧
          (p.green % 2 = 0 → p'.green = p.green) ∧
          (p.green % 2 = 1 → p'.green = p.green - 1) ∧
          (p.blue % 2 = 0 → p'.blue = p.blue) ∧
          (p.blue % 2 = 1 → p'.blue = p.blue - 1))) ∧
      (3 = 0 → g' = sampleGrid) ∧
      quantize_pixels [[⟨11, 21, 31⟩]] 1 1 1 = some [[⟨10, 20, 30⟩]] :=
  quantize_pixels_spec sampleGrid 2 2 3 (by decide) (by decide) (by decide)

/-- C7: on a grid of `h` rows by `w` pixels of `unsigned char` channels and for a level
`L` with `0 ≤ L ≤ 7`, applying `quantize_pixels` at level `L` to its own result at level
`L` returns that result again. -/
theorem quantize_pixels_idempotent (g : Grid) (h w L : Nat) (hs : Shape g h w)
    (hb : ByteGrid g) (hL : L ≤ 7) :
    ∃ g1, quantize_pixels g h w L = some g1 ∧ quantize_pixels g1 h w L = some g1 := by
  have hl : L < 8 := by omega
  refine ⟨_, quantize_pixels_eq_map hs L, ?_⟩
  rw [quantize_pixels_eq_map (shape_map hs _) L, List.map_map]
  congr 1
  apply List.map_congr_left
  intro row hrow
  rw [Function.comp_apply, List.map_map]
  apply List.map_congr_left
  intro p hp
  obtain ⟨hr, hg, hbl⟩ := hb row hrow p hp
  obtain ⟨c1, c2, c3⟩ := quantizePixel_channels L p
  obtain ⟨d1, d2, d3⟩ := quantizePixel_channels L (quantizePixel L p)
  have e : ∀ a b : Pixel, a.red = b.red → a.green = b.green → a.blue = b.blue → a = b := by
    intro a b h1 h2 h3
    cases a; cases b
    simp only at h1 h2 h3
    simp [h1, h2, h3]
  simp only [Function.comp_apply, Int.toNat_ofNat]
  apply e
  · rw [d1, c1, quantizeChannel_idem L hl _ hr]
  · rw [d2, c2, quantizeChannel_idem L hl _ hg]
  · rw [d3, c3, quantizeChannel_idem L hl _ hbl]

theorem quantize_pixels_idempotent_witness :
    ∃ g1, quantize_pixels sampleGrid (2 : Nat) (2 : Nat) (3 : Nat) = some g1 ∧
      quantize_pixels g1 (2 : Nat) (2 : Nat) (3 : Nat) = some g1 :=
  quantize_pixels_idempotent sampleGrid 2 2 3 (by decide) (by decide) (by decide)

/-- C8: on a grid of `h` rows by `w` pixels of `unsigned char` channels and for a level
`L` with `0 ≤ L ≤ 7`, every channel value produced by `quantize_pixels` is at most the
original value of that channel and has at most as many set bits. -/
theorem quantize_pixels_monotone (g : Grid) (h w L : Nat) (hs : Shape g h w)
    (hb : ByteGrid g) (hL : L ≤ 7) :
    ∃ g', quantize_pixels g h w L = some g' ∧
      ∀ i j, i < h → j < w → ∃ p p', readPixel g i j = some p ∧
        readPixel g' i j = some p' ∧
        (p'.red ≤ p.red ∧ setBits p'.red ≤ setBits p.red) ∧
        (p'.green ≤ p.green ∧ setBits p'.green ≤ setBits p.green) ∧
        (p'.blue ≤ p.blue ∧ setBits p'.blue ≤ setBits p.blue) := by
  have hl : L < 8 := by omega
  refine ⟨_, quantize_pixels_eq_map hs L, ?_⟩
  intro i j hi hj
  obtain ⟨p, hp⟩ := readPixel_isSome hs hi hj
  obtain ⟨hr, hg, hbl⟩ := readPixel_byte hb hp
  obtain ⟨c1, c2, c3⟩ := quantizePixel_channels L p
  refine ⟨p, quantizePixel L p, hp, by rw [readPixel_map, hp]; rfl, ?_, ?_, ?_⟩
  · rw [c1]
    exact ⟨by rw [(quantizeChannel_closed L hl _ hr).1]; exact Nat.sub_le _ _,
      quantizeChannel_setBits hl hr⟩
  · rw [c2]
    exact ⟨by rw [(quantizeChannel_closed L hl _ hg).1]; exact Nat.sub_le _ _,
      quantizeChannel_setBits hl hg⟩
  · rw [c3]
    exact ⟨by rw [(quantizeChannel_closed L hl _ hbl).1]; exact Nat.sub_le _ _,
      quantizeChannel_setBits hl hbl⟩

theorem quantize_pixels_monotone_witness :
    ∃ g', quantize_pixels sampleGrid (2 : Nat) (2 : Nat) (3 : Nat) = some g' ∧
      ∀ i j, i < 2 → j < 2 → ∃ p p', readPixel sampleGrid i j = some p ∧
        readPixel g' i j = some p' ∧
        (p'.red ≤ p.red ∧ setBits p'.red ≤ setBits p.red) ∧
        (p'.green ≤ p.green ∧ setBits p'.green ≤ setBits p.green) ∧
        (p'.blue ≤ p.blue ∧ setBits p'.blue ≤ setBits p.blue) :=
  quantize_pixels_monotone sampleGrid 2 2 3 (by decide) (by decide) (by decide)

/-! ## Channel removal -/

theorem remove_red_pixels_eq_map {g : Grid} {h w : Nat} (hs : Shape g h w) :
    remove_red_pixels g h w = some (g.map (List.map fun p => { p with red := 0 })) :=
  forEachPixel_eq_map (modify_actsAt _ h w) hs

theorem remove_green_pixels_eq_map {g : Grid} {h w : Nat} (hs : Shape g h w) :
    remove_green_pixels g h w = some (g.map (List.map fun p => { p with green := 0 })) :=
  forEachPixel_eq_map (modify_actsAt _ h w) hs

theorem remove_blue_pixels_eq_map {g : Grid} {h w : Nat} (hs : Shape g h w) :
    remove_blue_pixels g h w = some (g.map (List.map fun p => { p with blue := 0 })) :=
  forEachPixel_eq_map (modify_actsAt _ h w) hs

/-- C9: on a grid of `h` rows by `w` pixels, each of `remove_red_pixels`,
`remove_green_pixels` and `remove_blue_pixels` returns a grid in which its own channel
of the pixel at every position is `0` and the two other channels of that pixel have
their original values; removing red from the 2x2 scenario grid gives the grid of the
specification. -/
theorem remove_channel_pixels_spec (g : Grid) (h w : Nat) (hs : Shape g h w) :
    (∃ g', remove_red_pixels g h w = some g' ∧
      ∀ i j, i < h → j < w → ∃ p p', readPixel g i j = some p ∧
        readPixel g' i j = some p' ∧
        p'.red = 0 ∧ p'.green = p.green ∧ p'.blue = p.blue) ∧
    (∃ g', remove_green_pixels g h w = some g' ∧
      ∀ i j, i < h → j < w → ∃ p p', readPixel g i j = some p ∧
        readPixel g' i j = some p' ∧
        p'.green = 0 ∧ p'.red = p.red ∧ p'.blue = p.blue) ∧
    (∃ g', remove_blue_pixels g h w = some g' ∧
      ∀ i j, i < h → j < w → ∃ p p', readPixel g i j = some p ∧
        readPixel g' i j = some p' ∧
        p'.blue = 0 ∧ p'.red = p.red ∧ p'.green = p.green) ∧
    remove_red_pixels sampleGrid 2 2 =
      some [[⟨0, 20, 30⟩, ⟨0, 50, 60⟩], [⟨0, 80, 90⟩, ⟨0, 110, 120⟩]] := by
  refine ⟨⟨_, remove_red_pixels_eq_map hs, ?_⟩, ⟨_, remove_green_pixels_eq_map hs, ?_⟩,
    ⟨_, remove_blue_pixels_eq_map hs, ?_⟩, by decide⟩
  · intro i j hi hj
    obtain ⟨p, hp⟩ := readPixel_isSome hs hi hj
    exact ⟨p, { p with red := 0 }, hp, by rw [readPixel_map, hp]; rfl, rfl, rfl, rfl⟩
  · intro i j hi hj
    obtain ⟨p, hp⟩ := readPixel_isSome hs hi hj
    exact ⟨p, { p with green := 0 }, hp, by rw [readPixel_map, hp]; rfl, rfl, rfl, rfl⟩
  · intro i j hi hj
    obtain ⟨p, hp⟩ := readPixel_isSome hs hi hj
    exact ⟨p, { p with blue := 0 }, hp, by rw [readPixel_map, hp]; rfl, rfl, rfl, rfl⟩

theorem remove_channel_pixels_spec_witness :
    (∃ g', remove_red_pixels sampleGrid (2 : Nat) (2 : Nat) = some g' ∧
      ∀ i j, i < 2 → j < 2 → ∃ p p', readPixel sampleGrid i j = some p ∧
        readPixel g' i j = some p' ∧
        p'.red = 0 ∧ p'.green = p.green ∧ p'.blue = p.blue) ∧
    (∃ g', remove_green_pixels sampleGrid (2 : Nat) (2 : Nat) = some g' ∧
      ∀ i j, i < 2 → j < 2 → ∃ p p', readPixel sampleGrid i j = some p ∧
        readPixel g' i j = some p' ∧
        p'.green = 0 ∧ p'.red = p.red ∧ p'.blue = p.blue) ∧
    (∃ g', remove_blue_pixels sampleGrid (2 : Nat) (2 : Nat) = some g' ∧
      ∀ i j, i < 2 → j < 2 → ∃ p p', readPixel sampleGrid i j = some p ∧
        readPixel g' i j = some p' ∧
        p'.blue = 0 ∧ p'.red = p.red ∧ p'.green = p.green) ∧
    remove_red_pixels sampleGrid 2 2 =
      some [[⟨0, 20, 30⟩, ⟨0, 50, 60⟩], [⟨0, 80, 90⟩, ⟨0, 110, 120⟩]] :=
  remove_channel_pixels_spec sampleGrid 2 2 (by decide)

/-! ## Horizontal flip -/

theorem shape_mallocGrid (heap : Nat → Nat → Pixel) (h w : Nat) :
    Shape (mallocGrid heap h w) h w := by
  refine ⟨by simp [mallocGrid], ?_⟩
  intro row hrow
  simp only [mallocGrid, List.mem_map] at hrow
  obtain ⟨_, _, rfl⟩ := hrow
  simp

theorem copyChannels_eq (src dst : Pixel) : copyChannels src dst = src := rfl

theorem reverseRow_spec {g : Grid} {h w : Nat} (hs : Shape g h w) {i : Nat} (hi : i < h)
    {r : Grid} (hr : Shape r h w) :
    ∃ r', reverseRow g (w : Int) i r = some r' ∧ Shape r' h w ∧
      (∀ a b, a ≠ i → readPixel r' a b = readPixel r a b) ∧
      (∀ b, b < w → readPixel r' i b = readPixel g i (w - 1 - b)) := by
  have key := forDown_inv
    (fun j (st : Grid × Nat) =>
      (readPixel g i j).bind fun src =>
        (modifyPixel st.1 i st.2 (copyChannels src)).map fun r => (r, st.2 + 1))
    (fun c st => st.2 = w - c ∧ Shape st.1 h w ∧
      (∀ a b, a ≠ i → readPixel st.1 a b = readPixel r a b) ∧
      (∀ b, b < w - c → readPixel st.1 i b = readPixel g i (w - 1 - b)))
    w (r, 0) ⟨by simp, hr, fun _ _ _ => rfl, fun b hb => by omega⟩
    (by
      intro k t hk hI
      obtain ⟨hrw, hS, hother, hrow⟩ := hI
      obtain ⟨src, hsrc⟩ := readPixel_isSome hs hi hk
      have hlt : t.2 < w := by omega
      obtain ⟨t', ht', hS', hR'⟩ := modifyPixel_spec hS hi hlt (copyChannels src)
      refine ⟨(t', t.2 + 1), by simp [hsrc, ht'], by simp only; omega, hS', ?_, ?_⟩
      · intro a b ha
        simp only
        rw [hR' a b, if_neg (fun hc => ha hc.1)]
        exact hother a b ha
      · intro b hb
        simp only
        rw [hR' i b]
        by_cases hbe : b = t.2
        · obtain ⟨q, hq⟩ := readPixel_isSome hS hi hlt
          rw [if_pos ⟨rfl, hbe⟩, hbe, hq, show w - 1 - t.2 = k by omega, hsrc]
          rfl
        · rw [if_neg (fun hc => hbe hc.2)]
          exact hrow b (by omega))
  obtain ⟨st, hst, _, hS, hother, hrow⟩ := key
  refine ⟨st.1, ?_, hS, hother, fun b hb => hrow b (by omega)⟩
  simp [reverseRow, hst]

theorem flip_horizontal_pixels_pointwise (heap : Nat → Nat → Pixel) {g : Grid} {h w : Nat}
    (hs : Shape g h w) :
    ∃ g', flip_horizontal_pixels heap g h w = some g' ∧ Shape g' h w ∧
      ∀ a b, a < h → b < w → readPixel g' a b = readPixel g a (w - 1 - b) := by
  obtain ⟨rev, hrev, hSrev, hRrev⟩ := forUp_inv
    (fun i pixelsReversed => reverseRow g (w : Int) i pixelsReversed)
    (fun i r => Shape r h w ∧
      ∀ a b, a < i → b < w → readPixel r a b = readPixel g a (w - 1 - b))
    h 0 (mallocGrid heap h w) ⟨shape_mallocGrid heap h w, fun a b ha => by omega⟩
    (by
      intro i r _ hi hI
      obtain ⟨r', hr', hS', hother, hrow⟩ := reverseRow_spec hs (by omega : i < h) hI.1
      refine ⟨r', hr', hS', ?_⟩
      intro a b ha hb
      by_cases hai : a = i
      · subst hai
        exact hrow b hb
      · rw [hother a b hai]
        exact hI.2 a b (by omega) hb)
  have hacts : ActsAt
      (fun i j pixels =>
        (readPixel rev i j).bind fun src => modifyPixel pixels i j (copyChannels src))
      (fun i j => (readPixel rev i j).elim id copyChannels) h w := by
    intro t i j hS hi hj
    obtain ⟨src, hsrc⟩ := readPixel_isSome hSrev hi hj
    obtain ⟨t', ht', hS', hR'⟩ := modifyPixel_spec hS hi hj (copyChannels src)
    exact ⟨t', by simp [hsrc, ht'], hS', by simpa [hsrc] using hR'⟩
  obtain ⟨g', hg', hS', hR'⟩ := forEachPixel_pointwise hacts hs
  refine ⟨g', ?_, hS', ?_⟩
  · simp only [flip_horizontal_pixels, Int.toNat_ofNat]
    rw [hrev]
    exact hg'
  · intro a b ha hb
    obtain ⟨src, hsrc⟩ := readPixel_isSome hSrev ha hb
    obtain ⟨q, hq⟩ := readPixel_isSome hs ha hb
    rw [hR' a b ha hb, hq, hsrc, ← hRrev a b (by omega) hb, hsrc]
    rfl

theorem shape_map_reverse {g : Grid} {h w : Nat} (hs : Shape g h w) :
    Shape (g.map List.reverse) h w := by
  refine ⟨by rw [List.length_map]; exact hs.1, ?_⟩
  intro r hr
  obtain ⟨r0, hr0, rfl⟩ := List.mem_map.mp hr
  rw [List.length_reverse]
  exact hs.2 r0 hr0

theorem readPixel_map_reverse {g : Grid} {h w : Nat} (hs : Shape g h w) {a b : Nat}
    (ha : a < h) (hb : b < w) :
    readPixel (g.map List.reverse) a b = readPixel g a (w - 1 - b) := by
  obtain ⟨row, hrow, hlen⟩ := hs.getRow ha
  simp only [readPixel, List.getElem?_map, hrow, Option.map_some']
  rw [List.getElem?_reverse (by omega), hlen]

theorem flip_horizontal_pixels_eq_map (heap : Nat → Nat → Pixel) {g : Grid} {h w : Nat}
    (hs : Shape g h w) :
    flip_horizontal_pixels heap g h w = some (g.map List.reverse) := by
  obtain ⟨g', hg', hS, hR⟩ := flip_horizontal_pixels_pointwise heap hs
  rw [hg']
  congr 1
  apply grid_ext hS (shape_map_reverse hs)
  intro a b ha hb
  rw [hR a b ha hb, readPixel_map_reverse hs ha hb]

/-- C4: on a grid of `h` rows by `w` pixels, whatever the initial content of the scratch
array, `flip_horizontal_pixels` returns a grid whose pixel at `(i, j)`, for `i < h` and
`j < w`, is the original pixel at `(i, w - 1 - j)`: each row is the original row
reversed, in the original row order; the 2x2 scenario grid becomes the grid of the
specification. -/
theorem flip_horizontal_pixels_spec (heap : Nat → Nat → Pixel) (g : Grid) (h w : Nat)
    (hs : Shape g h w) :
    ∃ g', flip_horizontal_pixels heap g h w = some g' ∧
      (∀ i j, i < h → j < w → ∃ p, readPixel g i (w - 1 - j) = some p ∧
        readPixel g' i j = some p) ∧
      g' = g.map List.reverse ∧
      flip_horizontal_pixels heap sampleGrid 2 2 =
        some [[⟨40, 50, 60⟩, ⟨10, 20, 30⟩], [⟨100, 110, 120⟩, ⟨70, 80, 90⟩]] := by
  refine ⟨_, flip_horizontal_pixels_eq_map heap hs, ?_, rfl, ?_⟩
  · intro i j hi hj
    obtain ⟨p, hp⟩ := readPixel_isSome hs hi (by omega : w - 1 - j < w)
    exact ⟨p, hp, by rw [readPixel_map_reverse hs hi hj, hp]⟩
  · exact flip_horizontal_pixels_eq_map heap (by decide : Shape sampleGrid 2 2)

theorem flip_horizontal_pixels_spec_witness :
    ∃ g', flip_horizontal_pixels (fun _ _ => ⟨1, 2, 3⟩) sampleGrid (2 : Nat) (2 : Nat) =
        some g' ∧
      (∀ i j, i < 2 → j < 2 → ∃ p, readPixel sampleGrid i (2 - 1 - j) = some p ∧
        readPixel g' i j = some p) ∧
      g' = sampleGrid.map List.reverse ∧
      flip_horizontal_pixels (fun _ _ => ⟨1, 2, 3⟩) sampleGrid 2 2 =
        some [[⟨40, 50, 60⟩, ⟨10, 20, 30⟩], [⟨100, 110, 120⟩, ⟨70, 80, 90⟩]] :=
  flip_horizontal_pixels_spec (fun _ _ => ⟨1, 2, 3⟩) sampleGrid 2 2 (by decide)

/-- C5: on a grid of `h` rows by `w` pixels, for every `h` and `w` (odd widths, width `0`
and width `1` included) and whatever the initial contents of the two scratch arrays,
`flip_horizontal_pixels` applied to its own result returns the original grid. -/
theorem flip_horizontal_pixels_involution (heap heap' : Nat → Nat → Pixel) (g : Grid)
    (h w : Nat) (hs : Shape g h w) :
    ∃ g1, flip_horizontal_pixels heap g h w = some g1 ∧
      flip_horizontal_pixels heap' g1 h w = some g := by
  refine ⟨_, flip_horizontal_pixels_eq_map heap hs, ?_⟩
  rw [flip_horizontal_pixels_eq_map heap' (shape_map_reverse hs), List.map_map]
  congr 1
  conv_rhs => rw [← List.map_id g]
  apply List.map_congr_left
  intro row _
  simp

theorem flip_horizontal_pixels_involution_witness :
    ∃ g1, flip_horizontal_pixels (fun _ _ => ⟨1, 2, 3⟩)
        [[⟨1, 2, 3⟩, ⟨4, 5, 6⟩, ⟨7, 8, 9⟩]] (1 : Nat) (3 : Nat) = some g1 ∧
      flip_horizontal_pixels (fun _ _ => ⟨0, 0, 0⟩) g1 (1 : Nat) (3 : Nat) =
        some [[⟨1, 2, 3⟩, ⟨4, 5, 6⟩, ⟨7, 8, 9⟩]] :=
  flip_horizontal_pixels_involution (fun _ _ => ⟨1, 2, 3⟩) (fun _ _ => ⟨0, 0, 0⟩)
    [[⟨1, 2, 3⟩, ⟨4, 5, 6⟩, ⟨7, 8, 9⟩]] 1 3 (by decide)

/-! ## Shape -/

/-- C10: on a grid of exactly `h` rows of exactly `w` pixels each, every transform
(`invert_pixels`, `quantize_pixels` at any level, `remove_red_pixels`,
`remove_green_pixels`, `remove_blue_pixels`, `flip_horizontal_pixels`) returns a grid of
exactly `h` rows of exactly `w` pixels each. -/
theorem transforms_preserve_shape (heap : Nat → Nat → Pixel) (g : Grid) (h w : Nat)
    (L : Int) (hs : Shape g h w) :
    (∃ g', invert_pixels g h w = some g' ∧ Shape g' h w) ∧
    (∃ g', quantize_pixels g h w L = some g' ∧ Shape g' h w) ∧
    (∃ g', remove_red_pixels g h w = some g' ∧ Shape g' h w) ∧
    (∃ g', remove_green_pixels g h w = some g' ∧ Shape g' h w) ∧
    (∃ g', remove_blue_pixels g h w = some g' ∧ Shape g' h w) ∧
    (∃ g', flip_horizontal_pixels heap g h w = some g' ∧ Shape g' h w) :=
  ⟨⟨_, invert_pixels_eq_map hs, shape_map hs _⟩,
    ⟨_, quantize_pixels_eq_map hs L, shape_map hs _⟩,
    ⟨_, remove_red_pixels_eq_map hs, shape_map hs _⟩,
    ⟨_, remove_green_pixels_eq_map hs, shape_map hs _⟩,
    ⟨_, remove_blue_pixels_eq_map hs, shape_map hs _⟩,
    ⟨_, flip_horizontal_pixels_eq_map heap hs, shape_map_reverse hs⟩⟩

theorem transforms_preserve_shape_witness :
    (∃ g', invert_pixels sampleGrid (2 : Nat) (2 : Nat) = some g' ∧ Shape g' 2 2) ∧
    (∃ g', quantize_pixels sampleGrid (2 : Nat) (2 : Nat) 5 = some g' ∧ Shape g' 2 2) ∧
    (∃ g', remove_red_pixels sampleGrid (2 : Nat) (2 : Nat) = some g' ∧ Shape g' 2 2) ∧
    (∃ g', remove_green_pixels sampleGrid (2 : Nat) (2 : Nat) = some g' ∧ Shape g' 2 2) ∧
    (∃ g', remove_blue_pixels sampleGrid (2 : Nat) (2 : Nat) = some g' ∧ Shape g' 2 2) ∧
    (∃ g', flip_horizontal_pixels (fun _ _ => ⟨0, 0, 0⟩) sampleGrid (2 : Nat) (2 : Nat) =
      some g' ∧ Shape g' 2 2) :=
  transforms_preserve_shape (fun _ _ => ⟨0, 0, 0⟩) sampleGrid 2 2 5 (by decide)

/-! ## Codec: reading -/

theorem toUChar_cast (x : Int) : ((toUChar x : Nat) : Int) = x % 256 := by
  unfold toUChar
  exact Int.toNat_of_nonneg (Int.emod_nonneg _ (by norm_num))

theorem shr_eq_div (x : Int) (n : Nat) : shr x n = x / ((2 ^ n : Nat) : Int) :=
  Int.shiftRight_eq_div_pow x n

theorem bytesToInt32_int32Bytes (x : Int) (hlo : -2147483648 ≤ x) (hhi : x < 2147483648) :
    bytesToInt32 (int32Bytes x) = x := by
  simp only [bytesToInt32, int32Bytes, toUChar_cast, shr_eq_div]
  norm_num
  split <;> omega

theorem forEachPixel_toNat {σ : Type} (height width : Int)
    (body : Nat → Nat → σ → Option σ) (s : σ) :
    forEachPixel height width body s =
      forEachPixel (height.toNat : Int) (width.toNat : Int) body s := by
  simp only [forEachPixel, Int.toNat_ofNat]

theorem mallocGrid_toNat (heap : Nat → Nat → Pixel) (height width : Int) :
    mallocGrid heap height width =
      mallocGrid heap (height.toNat : Int) (width.toNat : Int) := by
  simp only [mallocGrid, Int.toNat_ofNat]

theorem freadInt_full (fp : FILE) (old : Int) (h : fp.pos + 4 ≤ fp.content.length) :
    freadInt fp old = (fieldAt fp.content fp.pos, { fp with pos := fp.pos + 4 }) := by
  have hlen : ((fp.content.drop fp.pos).take 4).length = 4 := by
    rw [List.length_take, List.length_drop]; omega
  simp only [freadInt, fieldAt, hlen]
  simp [int32Bytes]

theorem freadChannel_avail (store : Pixel → Nat → Pixel) (i j : Nat) (st : Grid × FILE)
    (h : st.2.pos < st.2.content.length) :
    freadChannel store i j st =
      (modifyPixel st.1 i j fun p => store p (st.2.content.getD st.2.pos 0)).map fun g =>
        (g, { st.2 with pos := st.2.pos + 1 }) := by
  simp [freadChannel, List.getElem?_eq_getElem h]

theorem freadChannel_eof (store : Pixel → Nat → Pixel) (i j : Nat) (st : Grid × FILE)
    (h : st.2.content.length ≤ st.2.pos) : freadChannel store i j st = some st := by
  simp [freadChannel, List.getElem?_eq_none h]

theorem freadChannel_spec (store : Pixel → Nat → Pixel) {H W i j : Nat}
    (st : Grid × FILE) (hS : Shape st.1 H W) (hi : i < H) (hj : j < W)
    (h : st.2.pos < st.2.content.length) :
    ∃ g', freadChannel store i j st = some (g', { st.2 with pos := st.2.pos + 1 }) ∧
      Shape g' H W ∧
      ∀ a b, readPixel g' a b =
        if a = i ∧ b = j then
          (readPixel st.1 a b).map fun p => store p (st.2.content.getD st.2.pos 0)
        else readPixel st.1 a b := by
  obtain ⟨g', hg', hS', hR'⟩ := modifyPixel_spec hS hi hj
    (fun p => store p (st.2.content.getD st.2.pos 0))
  exact ⟨g', by rw [freadChannel_avail store i j st h, hg']; rfl, hS', hR'⟩

theorem freadChannel_shape (store : Pixel → Nat → Pixel) {H W i j : Nat}
    (st : Grid × FILE) (hS : Shape st.1 H W) (hi : i < H) (hj : j < W) :
    ∃ st', freadChannel store i j st = some st' ∧ Shape st'.1 H W := by
  by_cases h : st.2.pos < st.2.content.length
  · obtain ⟨g', hg', hS', _⟩ := freadChannel_spec store st hS hi hj h
    exact ⟨_, hg', hS'⟩
  · exact ⟨st, freadChannel_eof store i j st (by omega), hS⟩

theorem loadPixel_shape {H W i j : Nat} (st : Grid × FILE) (hS : Shape st.1 H W)
    (hi : i < H) (hj : j < W) :
    ∃ st', loadPixel i j st = some st' ∧ Shape st'.1 H W := by
  obtain ⟨s1, h1, hS1⟩ := freadChannel_shape (fun p b => { p with blue := b }) st hS hi hj
  obtain ⟨s2, h2, hS2⟩ := freadChannel_shape (fun p b => { p with green := b }) s1 hS1 hi hj
  obtain ⟨s3, h3, hS3⟩ := freadChannel_shape (fun p b => { p with red := b }) s2 hS2 hi hj
  exact ⟨s3, by simp only [loadPixel, h1, h2, h3, Option.some_bind], hS3⟩

theorem loadPixel_full {H W i j : Nat} (st : Grid × FILE) (hS : Shape st.1 H W)
    (hi : i < H) (hj : j < W) (h : st.2.pos + 3 ≤ st.2.content.length) :
    ∃ g', loadPixel i j st = some (g', { st.2 with pos := st.2.pos + 3 }) ∧
      Shape g' H W ∧
      ∀ a b, readPixel g' a b =
        if a = i ∧ b = j then
          some { red := st.2.content.getD (st.2.pos + 2) 0,
                 green := st.2.content.getD (st.2.pos + 1) 0,
                 blue := st.2.content.getD st.2.pos 0 }
        else readPixel st.1 a b := by
  obtain ⟨p, hp⟩ := readPixel_isSome hS hi hj
  obtain ⟨g1, h1, hS1, hR1⟩ := freadChannel_spec (fun p b => { p with blue := b }) st
    hS hi hj (by omega)
  obtain ⟨g2, h2, hS2, hR2⟩ := freadChannel_spec (fun p b => { p with green := b })
    (g1, { st.2 with pos := st.2.pos + 1 }) hS1 hi hj (by simp only; omega)
  obtain ⟨g3, h3, hS3, hR3⟩ := freadChannel_spec (fun p b => { p with red := b })
    (g2, { st.2 with pos := st.2.pos + 1 + 1 }) hS2 hi hj (by simp only; omega)
  refine ⟨g3, by simp only [loadPixel, h1, h2, h3, Option.some_bind], hS3, ?_⟩
  intro a b
  rw [hR3 a b]
  by_cases hab : a = i ∧ b = j
  · obtain ⟨rfl, rfl⟩ := hab
    rw [if_pos ⟨rfl, rfl⟩, if_pos ⟨rfl, rfl⟩, hR2 a b, if_pos ⟨rfl, rfl⟩, hR1 a b,
      if_pos ⟨rfl, rfl⟩, hp]
    rfl
  · rw [if_neg hab, if_neg hab, hR2 a b, if_neg hab, hR1 a b, if_neg hab]

theorem pixel_offset_lt {H W i j : Nat} (hi : i < H) (hj : j < W) :
    3 * (i * W + j) + 3 ≤ 3 * W * H := by
  have h1 : (i + 1) * W ≤ H * W := Nat.mul_le_mul_right W hi
  have h2 : (i + 1) * W = i * W + W := by ring
  have h3 : 3 * W * H = 3 * (H * W) := by ring
  omega

theorem load_pixels_complete (content : List Nat) (heap : Nat → Nat → Pixel) (H W : Nat)
    (hlen : 54 + 3 * W * H ≤ content.length) :
    ∃ g fp, forEachPixel (H : Int) (W : Int) loadPixel
        (mallocGrid heap H W, { content := content, pos := 54 }) = some (g, fp) ∧
      Shape g H W ∧
      ∀ i j, i < H → j < W → readPixel g i j = some (pixelAt content W i j) := by
  obtain ⟨st, hst, hI⟩ := forEachPixel_inv loadPixel
    (fun i j (st : Grid × FILE) => st.2.content = content ∧
      st.2.pos = 54 + 3 * (i * W + j) ∧ Shape st.1 H W ∧
      ∀ a b, a < H → b < W → (a < i ∨ (a = i ∧ b < j)) →
        readPixel st.1 a b = some (pixelAt content W a b))
    H W (mallocGrid heap H W, { content := content, pos := 54 })
    ⟨rfl, by simp, shape_mallocGrid heap H W, fun a b _ _ hc => by omega⟩
    (by
      intro i j st hi hj hI
      obtain ⟨hc, hpos, hS, hR⟩ := hI
      have hoff := pixel_offset_lt hi hj
      obtain ⟨g', hg', hS', hR'⟩ := loadPixel_full st hS hi hj (by rw [hc, hpos]; omega)
      refine ⟨_, hg', hc, ?_, hS', ?_⟩
      · simp only [hpos]
        ring
      · intro a b ha hb hcase
        simp only
        rw [hR' a b]
        by_cases hab : a = i ∧ b = j
        · obtain ⟨rfl, rfl⟩ := hab
          rw [if_pos ⟨rfl, rfl⟩, hc, hpos]
          rfl
        · rw [if_neg hab]
          exact hR a b ha hb (by omega))
    (by
      intro i st hi hI
      obtain ⟨hc, hpos, hS, hR⟩ := hI
      refine ⟨hc, by rw [hpos]; ring, hS, ?_⟩
      intro a b ha hb hcase
      exact hR a b ha hb (by omega))
  obtain ⟨_, _, hS, hR⟩ := hI
  exact ⟨st.1, st.2, hst, hS, fun i j hi hj => hR i j hi hj (Or.inl hi)⟩

theorem load_pixels_total (H W : Nat) (g0 : Grid) (fp : FILE) (hS : Shape g0 H W) :
    ∃ st, forEachPixel (H : Int) (W : Int) loadPixel (g0, fp) = some st ∧
      Shape st.1 H W :=
  forEachPixel_inv loadPixel (fun _ _ (st : Grid × FILE) => Shape st.1 H W) H W (g0, fp)
    hS (fun _ _ st hi hj hI => loadPixel_shape st hI hi hj) (fun _ _ _ hI => hI)

theorem allocPixels_rows (alloc : Allocator) (heap : Nat → Nat → Pixel)
    (height width : Int) (hrows : 0 < height.toNat → alloc.rows = true) :
    ∃ g, allocPixels alloc heap height width = some g ∧ g.length = height.toNat ∧
      ∀ i, i < height.toNat → g[i]? = some
        (if alloc.row i then (List.range width.toNat).map fun j => heap i j else []) := by
  have hinit : (if alloc.rows then List.replicate height.toNat ([] : List Pixel)
      else []).length = height.toNat := by
    by_cases hr : alloc.rows = true
    · simp [hr]
    · have h0 : height.toNat = 0 := by
        by_contra hne
        exact hr (hrows (Nat.pos_of_ne_zero hne))
      simp [hr, h0]
  obtain ⟨g, hg, hlen, hrow⟩ := forUp_inv
    (fun i (pixels : Grid) =>
      storeRow pixels i
        (if alloc.row i then (List.range width.toNat).map fun j => heap i j else []))
    (fun i (g : Grid) => g.length = height.toNat ∧ ∀ a, a < i → g[a]? = some
      (if alloc.row a then (List.range width.toNat).map fun j => heap a j else []))
    height.toNat 0 _ ⟨hinit, fun a ha => by omega⟩
    (by
      intro k t _ hk hI
      obtain ⟨hlen, hrow⟩ := hI
      have hkl : k < t.length := by omega
      refine ⟨t.set k
        (if alloc.row k then (List.range width.toNat).map fun j => heap k j else []),
        by simp only [storeRow, if_pos hkl], ?_, ?_⟩
      · rw [List.length_set]; exact hlen
      · intro a ha
        by_cases hak : a = k
        · subst hak
          rw [List.getElem?_set_self hkl]
        · rw [List.getElem?_set_ne (fun e => hak e.symm)]
          exact hrow a (by omega))
  refine ⟨g, hg, hlen, fun i hi => hrow i (by omega)⟩

theorem allocPixels_ok {alloc : Allocator} (heap : Nat → Nat → Pixel) (height width : Int)
    (hok : AllocOK alloc height.toNat width.toNat) :
    allocPixels alloc heap height width = some (mallocGrid heap height width) := by
  obtain ⟨g, hg, hlen, hrow⟩ := allocPixels_rows alloc heap height width hok.1
  rw [hg]
  congr 1
  apply List.ext_getElem?
  intro i
  by_cases hi : i < height.toNat
  · rw [hrow i hi]
    simp only [mallocGrid, List.getElem?_map, List.getElem?_range hi, Option.map_some']
    by_cases hw : 0 < width.toNat
    · rw [if_pos (hok.2 hw i hi)]
    · have hw0 : width.toNat = 0 := by omega
      simp [hw0]
  · rw [List.getElem?_eq_none (by omega),
      List.getElem?_eq_none (by simp only [mallocGrid, List.length_map, List.length_range]; omega)]

theorem allocPixels_null_rows {alloc : Allocator} (heap : Nat → Nat → Pixel)
    (height width : Int) (hrows : alloc.rows = false) (hh : 0 < height.toNat) :
    allocPixels alloc heap height width = none := by
  obtain ⟨n, hn⟩ := Nat.exists_eq_succ_of_ne_zero (Nat.ne_of_gt hh)
  simp [allocPixels, hrows, hn, forUp, storeRow]

theorem forUp_some_inv {σ : Type} (body : Nat → σ → Option σ) (Inv : Nat → σ → Prop) :
    ∀ (n i0 : Nat) (s s' : σ), Inv i0 s →
      (∀ k t t', i0 ≤ k → k < i0 + n → Inv k t → body k t = some t' → Inv (k + 1) t') →
      forUp body n i0 s = some s' → Inv (i0 + n) s'
  | 0, i0, s, s', h0, _, hres => by
    simp only [forUp, Option.some.injEq] at hres
    subst hres
    simpa using h0
  | n + 1, i0, s, s', h0, hstep, hres => by
    simp only [forUp] at hres
    cases hb : body i0 s with
    | none => rw [hb] at hres; cases hres
    | some t =>
      rw [hb] at hres
      have key := forUp_some_inv body Inv n (i0 + 1) t s'
        (hstep i0 s t (le_refl _) (by omega) h0 hb)
        (fun k u u' hk hk' hu hbu => hstep k u u' (by omega) (by omega) hu hbu) hres
      rwa [show i0 + (n + 1) = i0 + 1 + n by omega]

theorem modifyPixel_other_row {g g' : Grid} {i j : Nat} {f : Pixel → Pixel}
    (h : modifyPixel g i j f = some g') {a : Nat} (ha : a ≠ i) : g'[a]? = g[a]? := by
  cases hrow : g[i]? with
  | none => simp [modifyPixel, hrow] at h
  | some row =>
    cases hp : row[j]? with
    | none => simp [modifyPixel, hrow, hp] at h
    | some p =>
      simp only [modifyPixel, hrow, hp, Option.some.injEq] at h
      rw [← h, List.getElem?_set_ne (fun e => ha e.symm)]

theorem modifyPixel_isSome (g : Grid) (i j : Nat) (f : Pixel → Pixel) :
    (modifyPixel g i j f).isSome = (readPixel g i j).isSome := by
  unfold modifyPixel readPixel
  cases g[i]? with
  | none => rfl
  | some row =>
    cases hj : row[j]? with
    | none => simp [hj]
    | some p => simp [hj]

theorem freadChannel_some (store : Pixel → Nat → Pixel) {i j : Nat}
    {st st' : Grid × FILE} (h : st.2.pos < st.2.content.length)
    (hres : freadChannel store i j st = some st') :
    st'.2 = { st.2 with pos := st.2.pos + 1 } ∧ (readPixel st.1 i j).isSome ∧
      ∀ a, a ≠ i → st'.1[a]? = st.1[a]? := by
  rw [freadChannel_avail store i j st h] at hres
  cases hm : modifyPixel st.1 i j (fun p => store p (st.2.content.getD st.2.pos 0)) with
  | none => rw [hm] at hres; cases hres
  | some g' =>
    rw [hm, Option.map_some', Option.some.injEq] at hres
    rw [← hres]
    refine ⟨rfl, ?_, fun a ha => modifyPixel_other_row hm ha⟩
    rw [← modifyPixel_isSome st.1 i j (fun p => store p (st.2.content.getD st.2.pos 0)),
      hm]
    rfl

theorem loadPixel_some {i j : Nat} {st st' : Grid × FILE}
    (h : st.2.pos + 3 ≤ st.2.content.length) (hres : loadPixel i j st = some st') :
    st'.2 = { st.2 with pos := st.2.pos + 3 } ∧ (readPixel st.1 i j).isSome ∧
      ∀ a, a ≠ i → st'.1[a]? = st.1[a]? := by
  simp only [loadPixel] at hres
  cases h1 : freadChannel (fun p b => { p with blue := b }) i j st with
  | none => rw [h1] at hres; cases hres
  | some s1 =>
    rw [h1, Option.some_bind] at hres
    obtain ⟨e1, hsome, o1⟩ := freadChannel_some _ (by omega) h1
    cases h2 : freadChannel (fun p b => { p with green := b }) i j s1 with
    | none => rw [h2] at hres; cases hres
    | some s2 =>
      rw [h2, Option.some_bind] at hres
      obtain ⟨e2, _, o2⟩ := freadChannel_some _ (by rw [e1]; simp only; omega) h2
      obtain ⟨e3, _, o3⟩ := freadChannel_some _ (by rw [e2, e1]; simp only; omega) hres
      refine ⟨by rw [e3, e2, e1], hsome, fun a ha => ?_⟩
      rw [o3 a ha, o2 a ha, o1 a ha]

theorem load_pixels_null_row (content : List Nat) (H W : Nat) (g0 : Grid) {i0 : Nat}
    (hi0 : i0 < H) (hW : 0 < W) (hrow : g0[i0]? = some [])
    (hlen : 54 + 3 * W * H ≤ content.length) :
    forEachPixel (H : Int) (W : Int) loadPixel
      (g0, { content := content, pos := 54 }) = none := by
  cases hres : forEachPixel (H : Int) (W : Int) loadPixel
      (g0, { content := content, pos := 54 }) with
  | none => rfl
  | some st =>
    exfalso
    simp only [forEachPixel, Int.toNat_ofNat] at hres
    have key := forUp_some_inv _
      (fun i (st : Grid × FILE) =>
        (i ≤ i0 → st.1[i0]? = some [] ∧ st.2.content = content ∧
          st.2.pos = 54 + 3 * (i * W)) ∧ (i0 < i → False))
      H 0 (g0, { content := content, pos := 54 }) st
      ⟨fun _ => ⟨hrow, rfl, by simp⟩, fun h => by omega⟩
      (by
        intro k t t' _ hk hI hbody
        obtain ⟨hkeep, habs⟩ := hI
        by_cases hlt : k < i0
        · refine ⟨fun _ => ?_, fun h => by omega⟩
          obtain ⟨hnull, hc, hpos⟩ := hkeep (by omega)
          have inner := forUp_some_inv _
            (fun j (u : Grid × FILE) => u.1[i0]? = some [] ∧ u.2.content = content ∧
              u.2.pos = 54 + 3 * (k * W + j))
            W 0 t t' ⟨hnull, hc, by rw [hpos]; rfl⟩
            (by
              intro j u u' _ hj hu hb
              obtain ⟨hun, huc, hup⟩ := hu
              have hoff := pixel_offset_lt (by omega : k < H) (by omega : j < W)
              obtain ⟨e, _, o⟩ := loadPixel_some (by rw [huc, hup]; omega) hb
              refine ⟨by rw [o i0 (by omega)]; exact hun, by rw [e]; exact huc, ?_⟩
              rw [e]
              simp only [hup]
              ring)
            hbody
          obtain ⟨h1, h2, h3⟩ := inner
          exact ⟨h1, h2, by rw [h3]; ring⟩
        · by_cases heq : k = i0
          · exfalso
            subst heq
            obtain ⟨hnull, hc, hpos⟩ := hkeep (le_refl _)
            obtain ⟨m, hm⟩ := Nat.exists_eq_succ_of_ne_zero (Nat.ne_of_gt hW)
            have hoff := pixel_offset_lt hi0 hW
            rw [hm] at hbody
            simp only [forUp] at hbody
            cases hb : loadPixel k 0 t with
            | none => rw [hb] at hbody; cases hbody
            | some t1 =>
              obtain ⟨_, hsome, _⟩ := loadPixel_some (by rw [hc, hpos]; omega) hb
              have hnone : readPixel t.1 k 0 = none := by
                simp [readPixel, hnull]
              rw [hnone] at hsome
              cases hsome
          · exact absurd (by omega : i0 < k) habs)
      hres
    exact key.2 (by omega)

theorem load_image_eq (content : List Nat) (image : RGB_Image)
    (heap : Nat → Nat → Pixel) (alloc : Allocator) :
    ∃ (size width height : Int) (fp : FILE),
      (54 ≤ content.length → size = fieldAt content 2 ∧ width = fieldAt content 18 ∧
        height = fieldAt content 22 ∧ fp = { content := content, pos := 54 }) ∧
      load_image (some content) image heap alloc =
        (allocPixels alloc heap height width).bind fun pixels =>
          (forEachPixel height width loadPixel (pixels, fp)).map fun st =>
            (SUCCESS, { height := height, width := width, size := size,
                        pixels := st.1 }) := by
  refine ⟨_, _, _, _, ?_, rfl⟩
  intro h54
  have e1 : freadInt (fseek { content := content, pos := 0 } 2) image.size =
      (fieldAt content 2, { content := content, pos := 6 }) :=
    freadInt_full _ _ (by simp only [fseek]; omega)
  have e2 : freadInt (fseek { content := content, pos := 6 } 12) image.width =
      (fieldAt content 18, { content := content, pos := 22 }) :=
    freadInt_full _ _ (by simp only [fseek]; omega)
  have e3 : freadInt { content := content, pos := 22 } image.height =
      (fieldAt content 22, { content := content, pos := 26 }) :=
    freadInt_full _ _ (by simp only; omega)
  simp only [e1, e2, e3]
  simp only [fseek, and_self]

theorem load_image_complete (content : List Nat) (image : RGB_Image)
    (heap : Nat → Nat → Pixel) (alloc : Allocator)
    (hlen : 54 + 3 * (fieldAt content 18).toNat * (fieldAt content 22).toNat
      ≤ content.length)
    (hok : AllocOK alloc (fieldAt content 22).toNat (fieldAt content 18).toNat) :
    ∃ g, load_image (some content) image heap alloc =
        some (SUCCESS, { height := fieldAt content 22, width := fieldAt content 18,
                         size := fieldAt content 2, pixels := g }) ∧
      Shape g (fieldAt content 22).toNat (fieldAt content 18).toNat ∧
      ∀ i j, i < (fieldAt content 22).toNat → j < (fieldAt content 18).toNat →
        readPixel g i j = some (pixelAt content (fieldAt content 18).toNat i j) := by
  obtain ⟨size, width, height, fp, hfields, heq⟩ := load_image_eq content image heap alloc
  obtain ⟨rfl, rfl, rfl, rfl⟩ := hfields (by omega)
  obtain ⟨g, fp', hloop, hS, hR⟩ := load_pixels_complete content heap
    (fieldAt content 22).toNat (fieldAt content 18).toNat hlen
  refine ⟨g, ?_, hS, hR⟩
  rw [heq, allocPixels_ok heap _ _ hok, Option.some_bind, forEachPixel_toNat,
    mallocGrid_toNat, hloop]
  rfl

theorem load_image_status {content : List Nat} {image : RGB_Image}
    {heap : Nat → Nat → Pixel} {alloc : Allocator} {r : Nat × RGB_Image}
    (hload : load_image (some content) image heap alloc = some r) :
    r.1 = SUCCESS ∧
      (54 ≤ content.length → r.2.size = fieldAt content 2 ∧
        r.2.width = fieldAt content 18 ∧ r.2.height = fieldAt content 22) := by
  obtain ⟨size, width, height, fp, hfields, heq⟩ := load_image_eq content image heap alloc
  rw [heq] at hload
  cases ha : allocPixels alloc heap height width with
  | none => rw [ha] at hload; cases hload
  | some g =>
    rw [ha, Option.some_bind] at hload
    cases hloop : forEachPixel height width loadPixel (g, fp) with
    | none => rw [hloop] at hload; cases hload
    | some st =>
      rw [hloop, Option.map_some', Option.some.injEq] at hload
      rw [← hload]
      refine ⟨rfl, fun h54 => ?_⟩
      obtain ⟨h1, h2, h3, _⟩ := hfields h54
      exact ⟨h1, h2, h3⟩

theorem load_image_complete_some {content : List Nat} {image : RGB_Image}
    {heap : Nat → Nat → Pixel} {alloc : Allocator} {r : Nat × RGB_Image}
    (hlen : 54 + 3 * (fieldAt content 18).toNat * (fieldAt content 22).toNat
      ≤ content.length)
    (hload : load_image (some content) image heap alloc = some r) :
    AllocOK alloc (fieldAt content 22).toNat (fieldAt content 18).toNat := by
  obtain ⟨size, width, height, fp, hfields, heq⟩ := load_image_eq content image heap alloc
  obtain ⟨rfl, rfl, rfl, rfl⟩ := hfields (by omega)
  rw [heq] at hload
  cases ha : allocPixels alloc heap (fieldAt content 22) (fieldAt content 18) with
  | none => rw [ha] at hload; cases hload
  | some g =>
    rw [ha, Option.some_bind] at hload
    have hrows : 0 < (fieldAt content 22).toNat → alloc.rows = true := by
      intro hh
      by_contra hr
      rw [allocPixels_null_rows heap _ _ (by simpa using hr) hh] at ha
      cases ha
    refine ⟨hrows, ?_⟩
    intro hw i hi
    by_contra hr
    obtain ⟨g', hg', _, hrow⟩ := allocPixels_rows alloc heap (fieldAt content 22)
      (fieldAt content 18) hrows
    rw [ha, Option.some.injEq] at hg'
    subst hg'
    have hnull : g[i]? = some [] := by
      rw [hrow i hi, if_neg hr]
    rw [forEachPixel_toNat, load_pixels_null_row content _ _ g hi hw hnull hlen] at hload
    cases hload

/-! ## Codec: copying a file -/

theorem take_append_three (content : List Nat) (pos : Nat)
    (h : pos + 3 ≤ content.length) :
    content.take pos ++ [content.getD pos 0] ++ [content.getD (pos + 1) 0] ++
      [content.getD (pos + 2) 0] = content.take (pos + 3) := by
  have h0 : content[pos]? = some (content.getD pos 0) := by
    rw [List.getD_eq_getElem?_getD, List.getElem?_eq_getElem (by omega)]; rfl
  have h1 : content[pos + 1]? = some (content.getD (pos + 1) 0) := by
    rw [List.getD_eq_getElem?_getD, List.getElem?_eq_getElem (by omega)]; rfl
  have h2 : content[pos + 2]? = some (content.getD (pos + 2) 0) := by
    rw [List.getD_eq_getElem?_getD, List.getElem?_eq_getElem (by omega)]; rfl
  rw [show pos + 3 = pos + 2 + 1 by rfl, List.take_succ, h2,
    show pos + 2 = pos + 1 + 1 by rfl, List.take_succ, h1, List.take_succ, h0]
  rfl

theorem save_pixels_of_file (content : List Nat) (g : Grid) (H W : Nat)
    (hR : ∀ i j, i < H → j < W → readPixel g i j = some (pixelAt content W i j))
    (hlen : 54 + 3 * W * H ≤ content.length) :
    forEachPixel (H : Int) (W : Int)
        (fun i j (out : List Nat) =>
          (readPixel g i j).map fun p => out ++ [p.blue] ++ [p.green] ++ [p.red])
        (content.take 54) = some (content.take (54 + 3 * W * H)) := by
  obtain ⟨out, hout, hI⟩ := forEachPixel_inv
    (fun i j (out : List Nat) =>
      (readPixel g i j).map fun p => out ++ [p.blue] ++ [p.green] ++ [p.red])
    (fun i j out => out = content.take (54 + 3 * (i * W + j)))
    H W (content.take 54) (by simp)
    (by
      intro i j out hi hj hI
      have hoff := pixel_offset_lt hi hj
      have hread := hR i j hi hj
      refine ⟨out ++ [(pixelAt content W i j).blue] ++ [(pixelAt content W i j).green] ++
        [(pixelAt content W i j).red], by simp only [hread, Option.map_some'], ?_⟩
      beta_reduce
      rw [hI]
      simp only [pixelAt]
      rw [take_append_three content _ (by omega),
        show 54 + 3 * (i * W + j) + 3 = 54 + 3 * (i * W + (j + 1)) by ring])
    (by
      intro i out _ hI
      rw [hI, show 54 + 3 * (i * W + W) = 54 + 3 * ((i + 1) * W + 0) by ring])
  rw [hout, hI, show 54 + 3 * (H * W + 0) = 54 + 3 * W * H by ring]

theorem bmp_header_length (image : RGB_Image) : (bmp_header image).length = 54 := rfl

theorem bmp_header_fields (size width height : Int) (data : List Nat)
    (hsize : -2147483648 ≤ size ∧ size < 2147483648)
    (hwidth : -2147483648 ≤ width ∧ width < 2147483648)
    (hheight : -2147483648 ≤ height ∧ height < 2147483648) :
    fieldAt (bmp_header ⟨height, width, size, []⟩ ++ data) 2 = size ∧
      fieldAt (bmp_header ⟨height, width, size, []⟩ ++ data) 18 = width ∧
      fieldAt (bmp_header ⟨height, width, size, []⟩ ++ data) 22 = height := by
  have hs := bytesToInt32_int32Bytes size hsize.1 hsize.2
  have hw := bytesToInt32_int32Bytes width hwidth.1 hwidth.2
  have hh := bytesToInt32_int32Bytes height hheight.1 hheight.2
  simp only [int32Bytes] at hs hw hh
  refine ⟨?_, ?_, ?_⟩
  · simpa [fieldAt, bmp_header] using hs
  · simpa [fieldAt, bmp_header] using hw
  · simpa [fieldAt, bmp_header] using hh

/-- C1, as amended: a file that `load_image` decodes successfully and that is made of
the 54-byte header that `save_image` writes for 32-bit values `size`, `width` and
`height`, followed by exactly `3 * max(width, 0) * max(height, 0)` bytes of pixel data,
is reproduced byte for byte by `save_image_copy` when the output file can be opened. -/
theorem save_image_copy_roundtrip (size width height : Int) (data : List Nat)
    (image : RGB_Image) (heap : Nat → Nat → Pixel) (alloc : Allocator)
    (hsize : -2147483648 ≤ size ∧ size < 2147483648)
    (hwidth : -2147483648 ≤ width ∧ width < 2147483648)
    (hheight : -2147483648 ≤ height ∧ height < 2147483648)
    (hdata : data.length = 3 * width.toNat * height.toNat)
    (hload : ∃ img, load_image (some (bmp_header ⟨height, width, size, []⟩ ++ data))
      image heap alloc = some (SUCCESS, img)) :
    save_image_copy (some (bmp_header ⟨height, width, size, []⟩ ++ data)) image heap
      alloc true = some (some (bmp_header ⟨height, width, size, []⟩ ++ data)) := by
  obtain ⟨f2, f18, f22⟩ := bmp_header_fields size width height data hsize hwidth hheight
  have hlen : (bmp_header ⟨height, width, size, []⟩ ++ data).length =
      54 + 3 * width.toNat * height.toNat := by
    rw [List.length_append, bmp_header_length, hdata]
  obtain ⟨img, himg⟩ := hload
  have hok := load_image_complete_some (by rw [f18, f22, hlen]) himg
  obtain ⟨g, hload, hS, hR⟩ := load_image_complete
    (bmp_header ⟨height, width, size, []⟩ ++ data) image heap alloc
    (by rw [f18, f22, hlen]) hok
  rw [f2, f18, f22] at hload
  rw [f18, f22] at hR
  have hsave := save_pixels_of_file (bmp_header ⟨height, width, size, []⟩ ++ data) g
    height.toNat width.toNat hR (by rw [hlen])
  have htake : (bmp_header ⟨height, width, size, []⟩ ++ data).take 54 =
      (bmp_header ⟨height, width, size, g⟩).take 54 := by
    rw [List.take_left' (bmp_header_length _)]
    rfl
  have hall : (bmp_header ⟨height, width, size, []⟩ ++ data).take
      (54 + 3 * width.toNat * height.toNat) =
      bmp_header ⟨height, width, size, []⟩ ++ data :=
    List.take_of_length_le (by rw [hlen])
  rw [htake, hall] at hsave
  simp only [save_image_copy, hload, Option.some_bind, SUCCESS, if_true, save_image]
  rw [forEachPixel_toNat, hsave]
  rfl

theorem save_image_copy_roundtrip_witness :
    ((-2147483648 : Int) ≤ 63 ∧ (63 : Int) < 2147483648) ∧
    ((-2147483648 : Int) ≤ 3 ∧ (3 : Int) < 2147483648) ∧
    ((-2147483648 : Int) ≤ 1 ∧ (1 : Int) < 2147483648) ∧
    [1, 2, 3, 4, 5, 6, 7, 8, 9].length = 3 * (3 : Int).toNat * (1 : Int).toNat ∧
    (∃ img, load_image (some (bmp_header ⟨1, 3, 63, []⟩ ++ [1, 2, 3, 4, 5, 6, 7, 8, 9]))
      ⟨0, 0, 0, []⟩ (fun _ _ => ⟨0, 0, 0⟩) allocAll = some (SUCCESS, img)) ∧
    save_image_copy (some (bmp_header ⟨1, 3, 63, []⟩ ++ [1, 2, 3, 4, 5, 6, 7, 8, 9]))
      ⟨0, 0, 0, []⟩ (fun _ _ => ⟨0, 0, 0⟩) allocAll true
      = some (some (bmp_header ⟨1, 3, 63, []⟩ ++ [1, 2, 3, 4, 5, 6, 7, 8, 9])) :=
  ⟨by decide, by decide, by decide, by decide,
    ⟨⟨1, 3, 63, [[⟨3, 2, 1⟩, ⟨6, 5, 4⟩, ⟨9, 8, 7⟩]]⟩, by decide⟩,
    save_image_copy_roundtrip 63 3 1 [1, 2, 3, 4, 5, 6, 7, 8, 9] ⟨0, 0, 0, []⟩
      (fun _ _ => ⟨0, 0, 0⟩) allocAll (by decide) (by decide) (by decide) (by decide)
      ⟨⟨1, 3, 63, [[⟨3, 2, 1⟩, ⟨6, 5, 4⟩, ⟨9, 8, 7⟩]]⟩, by decide⟩⟩

/-- C1, counterexample: `load_image` decodes the 57-byte file `resolutionFile`
successfully, as a 1x1 image of size field 57, and the file `save_image_copy` writes
for it differs from `resolutionFile`: the bytes at the offsets 38, 39, 42 and 43 are
written as `0`. Likewise `paddedFile` is decoded successfully and is written back
without its last byte. -/
theorem save_image_copy_not_identity :
    load_image (some resolutionFile) ⟨0, 0, 0, []⟩ (fun _ _ => ⟨0, 0, 0⟩) allocAll =
        some (SUCCESS, ⟨1, 1, 57, [[⟨10, 20, 30⟩]]⟩) ∧
      save_image_copy (some resolutionFile) ⟨0, 0, 0, []⟩ (fun _ _ => ⟨0, 0, 0⟩) allocAll
        true = some (some ((((resolutionFile.set 38 0).set 39 0).set 42 0).set 43 0)) ∧
      ¬ (save_image_copy (some resolutionFile) ⟨0, 0, 0, []⟩ (fun _ _ => ⟨0, 0, 0⟩)
        allocAll true = some (some resolutionFile)) ∧
      load_image (some paddedFile) ⟨0, 0, 0, []⟩ (fun _ _ => ⟨0, 0, 0⟩) allocAll =
        some (SUCCESS, ⟨1, 1, 58, [[⟨10, 20, 30⟩]]⟩) ∧
      save_image_copy (some paddedFile) ⟨0, 0, 0, []⟩ (fun _ _ => ⟨0, 0, 0⟩) allocAll
        true = some (some (paddedFile.take 57)) ∧
      ¬ (save_image_copy (some paddedFile) ⟨0, 0, 0, []⟩ (fun _ _ => ⟨0, 0, 0⟩) allocAll
        true = some (some paddedFile)) := by
  decide

/-! ## Codec: writing -/

theorem lex_index_lt {a b i j W : Nat} (hb : b < W) (h : a < i ∨ (a = i ∧ b < j)) :
    a * W + b < i * W + j := by
  rcases h with h | ⟨rfl, h⟩
  · have h1 : (a + 1) * W ≤ i * W := Nat.mul_le_mul_right W h
    have h2 : (a + 1) * W = a * W + W := by ring
    omega
  · omega

theorem save_pixels_spec (g : Grid) (H W : Nat) (hS : Shape g H W) (hdr : List Nat)
    (hlen : hdr.length = 54) :
    ∃ out, forEachPixel (H : Int) (W : Int)
        (fun i j (out : List Nat) =>
          (readPixel g i j).map fun p => out ++ [p.blue] ++ [p.green] ++ [p.red])
        hdr = some out ∧
      out.length = 54 + 3 * W * H ∧ out.take 54 = hdr ∧
      ∀ i j, i < H → j < W → ∃ p, readPixel g i j = some p ∧
        out[54 + 3 * (i * W + j)]? = some p.blue ∧
        out[54 + 3 * (i * W + j) + 1]? = some p.green ∧
        out[54 + 3 * (i * W + j) + 2]? = some p.red := by
  obtain ⟨out, hout, hL, hT, hP⟩ := forEachPixel_inv
    (fun i j (out : List Nat) =>
      (readPixel g i j).map fun p => out ++ [p.blue] ++ [p.green] ++ [p.red])
    (fun i j out => out.length = 54 + 3 * (i * W + j) ∧ out.take 54 = hdr ∧
      ∀ a b, a < H → b < W → (a < i ∨ (a = i ∧ b < j)) →
        ∃ p, readPixel g a b = some p ∧
          out[54 + 3 * (a * W + b)]? = some p.blue ∧
          out[54 + 3 * (a * W + b) + 1]? = some p.green ∧
          out[54 + 3 * (a * W + b) + 2]? = some p.red)
    H W hdr
    ⟨by simp [hlen], by rw [← hlen, List.take_length], fun a b _ _ hc => by omega⟩
    (by
      intro i j out hi hj hI
      obtain ⟨hL, hT, hP⟩ := hI
      obtain ⟨p, hp⟩ := readPixel_isSome hS hi hj
      refine ⟨out ++ [p.blue] ++ [p.green] ++ [p.red],
        by simp only [hp, Option.map_some'], ?_, ?_, ?_⟩
      · simp only [List.length_append, List.length_singleton, hL]
        ring
      · rw [List.append_assoc, List.append_assoc,
          List.take_append_of_le_length (by omega)]
        exact hT
      · intro a b ha hb hcase
        have hassoc : out ++ [p.blue] ++ [p.green] ++ [p.red] =
            out ++ [p.blue, p.green, p.red] := by simp
        rw [hassoc]
        by_cases hab : a = i ∧ b = j
        · obtain ⟨rfl, rfl⟩ := hab
          refine ⟨p, hp, ?_, ?_, ?_⟩
          · rw [List.getElem?_append_right (by omega), hL]; simp
          · rw [List.getElem?_append_right (by omega), hL,
              show 54 + 3 * (a * W + b) + 1 - (54 + 3 * (a * W + b)) = 1 by omega]; rfl
          · rw [List.getElem?_append_right (by omega), hL,
              show 54 + 3 * (a * W + b) + 2 - (54 + 3 * (a * W + b)) = 2 by omega]; rfl
        · have hold : a < i ∨ (a = i ∧ b < j) := by omega
          have hlt := lex_index_lt hb hold
          obtain ⟨q, hq, h0, h1, h2⟩ := hP a b ha hb hold
          refine ⟨q, hq, ?_, ?_, ?_⟩
          · rw [List.getElem?_append_left (by omega)]; exact h0
          · rw [List.getElem?_append_left (by omega)]; exact h1
          · rw [List.getElem?_append_left (by omega)]; exact h2)
    (by
      intro i out _ hI
      obtain ⟨hL, hT, hP⟩ := hI
      refine ⟨by rw [hL]; ring, hT, ?_⟩
      intro a b ha hb hcase
      exact hP a b ha hb (by omega))
  refine ⟨out, hout, by rw [hL]; ring, hT, ?_⟩
  intro i j hi hj
  exact hP i j hi hj (Or.inl hi)

theorem save_image_spec (image : RGB_Image)
    (hS : Shape image.pixels image.height.toNat image.width.toNat) :
    ∃ out, save_image true image = some (SUCCESS, some out) ∧
      out.length = 54 + 3 * image.width.toNat * image.height.toNat ∧
      out.take 54 = bmp_header image ∧
      ∀ i j, i < image.height.toNat → j < image.width.toNat →
        ∃ p, readPixel image.pixels i j = some p ∧
          out[54 + 3 * (i * image.width.toNat + j)]? = some p.blue ∧
          out[54 + 3 * (i * image.width.toNat + j) + 1]? = some p.green ∧
          out[54 + 3 * (i * image.width.toNat + j) + 2]? = some p.red := by
  obtain ⟨out, hout, hL, hT, hP⟩ := save_pixels_spec image.pixels image.height.toNat
    image.width.toNat hS ((bmp_header image).take 54)
    (by rw [List.length_take, bmp_header_length]; rfl)
  refine ⟨out, ?_, hL, ?_, hP⟩
  · simp only [save_image, if_true]
    rw [forEachPixel_toNat, hout]
    rfl
  · rw [hT]
    exact List.take_of_length_le (by rw [bmp_header_length])

theorem bmp_header_eq (image : RGB_Image) :
    bmp_header image = bmp_header ⟨image.height, image.width, image.size, []⟩ := rfl

theorem toUChar_lt (x : Int) : toUChar x < 256 := by
  have h := toUChar_cast x
  have h2 : x % 256 < 256 := Int.emod_lt_of_pos x (by norm_num)
  omega

theorem bmp_header_bytes (image : RGB_Image) : ∀ b ∈ bmp_header image, b < 256 := by
  intro b hb
  simp only [bmp_header, List.mem_cons, List.mem_singleton, List.not_mem_nil,
    or_false] at hb
  have h := toUChar_lt
  rcases hb with hb | hb | hb | hb | hb | hb | hb | hb | hb | hb | hb | hb | hb | hb | hb |
    hb | hb | hb | hb | hb | hb | hb | hb | hb | hb | hb | hb | hb | hb | hb | hb | hb | hb |
    hb | hb | hb | hb | hb | hb | hb | hb | hb | hb | hb | hb | hb | hb | hb | hb | hb | hb |
    hb | hb | hb <;> first | (rw [hb]; exact h _) | omega

theorem save_image_header (image : RGB_Image)
    (hS : Shape image.pixels image.height.toNat image.width.toNat) :
    ∃ out rest, save_image true image = some (SUCCESS, some out) ∧
      out = bmp_header image ++ rest ∧
      rest.length = 3 * image.width.toNat * image.height.toNat := by
  obtain ⟨out, hout, hL, hT, _⟩ := save_image_spec image hS
  refine ⟨out, out.drop 54, hout, ?_, ?_⟩
  · rw [← hT, List.take_append_drop]
  · rw [List.length_drop, hL]; omega

/-- C11: for every image whose `size`, `width` and `height` are 32-bit values and whose
pixel array matches its dimensions, `save_image` writes a file that starts with the 54
bytes of `bmp_header`; the four bytes at the offsets 2, 18 and 22 are the truncations to
8 bits of the value, the value `>> 8`, `>> 16` and `>> 24` of `size`, `width` and
`height`, and read as little-endian two's-complement 32-bit integers they give back
`size`, `width` and `height`, negative values and values above 255 included. -/
theorem save_image_header_fields (image : RGB_Image)
    (hsize : -2147483648 ≤ image.size ∧ image.size < 2147483648)
    (hwidth : -2147483648 ≤ image.width ∧ image.width < 2147483648)
    (hheight : -2147483648 ≤ image.height ∧ image.height < 2147483648)
    (hS : Shape image.pixels image.height.toNat image.width.toNat) :
    ∃ out, save_image true image = some (SUCCESS, some out) ∧
      (bmp_header image).length = 54 ∧ out.take 54 = bmp_header image ∧
      (∀ b ∈ out.take 54, b < 256) ∧
      (out.drop 2).take 4 = [toUChar image.size, toUChar (shr image.size 8),
        toUChar (shr image.size 16), toUChar (shr image.size 24)] ∧
      (out.drop 18).take 4 = [toUChar image.width, toUChar (shr image.width 8),
        toUChar (shr image.width 16), toUChar (shr image.width 24)] ∧
      (out.drop 22).take 4 = [toUChar image.height, toUChar (shr image.height 8),
        toUChar (shr image.height 16), toUChar (shr image.height 24)] ∧
      fieldAt out 2 = image.size ∧ fieldAt out 18 = image.width ∧
      fieldAt out 22 = image.height := by
  obtain ⟨out, rest, hout, hsplit, _⟩ := save_image_header image hS
  obtain ⟨f2, f18, f22⟩ := bmp_header_fields image.size image.width image.height rest
    hsize hwidth hheight
  have htake : out.take 54 = bmp_header image := by
    rw [hsplit, List.take_left' (bmp_header_length image)]
  refine ⟨out, hout, bmp_header_length image, htake, ?_, ?_, ?_, ?_, ?_, ?_, ?_⟩
  · rw [htake]; exact bmp_header_bytes image
  · rw [hsplit]; simp [bmp_header]
  · rw [hsplit]; simp [bmp_header]
  · rw [hsplit]; simp [bmp_header]
  · rw [hsplit, bmp_header_eq]; exact f2
  · rw [hsplit, bmp_header_eq]; exact f18
  · rw [hsplit, bmp_header_eq]; exact f22

theorem save_image_header_fields_witness :
    ∃ out, save_image true ⟨1, -2, 300, [[]]⟩ = some (SUCCESS, some out) ∧
      (bmp_header ⟨1, -2, 300, [[]]⟩).length = 54 ∧
      out.take 54 = bmp_header ⟨1, -2, 300, [[]]⟩ ∧
      (∀ b ∈ out.take 54, b < 256) ∧
      (out.drop 2).take 4 = [toUChar 300, toUChar (shr 300 8),
        toUChar (shr 300 16), toUChar (shr 300 24)] ∧
      (out.drop 18).take 4 = [toUChar (-2), toUChar (shr (-2) 8),
        toUChar (shr (-2) 16), toUChar (shr (-2) 24)] ∧
      (out.drop 22).take 4 = [toUChar 1, toUChar (shr 1 8),
        toUChar (shr 1 16), toUChar (shr 1 24)] ∧
      fieldAt out 2 = 300 ∧ fieldAt out 18 = -2 ∧ fieldAt out 22 = 1 :=
  save_image_header_fields ⟨1, -2, 300, [[]]⟩ (by decide) (by decide) (by decide)
    (by decide)

/-- C12, counterexample: in the header `save_image` writes for a 1x1 image of size 57,
the bytes at the offsets 10, 14, 26 and 34, which lie in the ranges 6-17 and 26-53
outside the bit-depth and compression fields, are 54, 40, 1 and 17, not 0. -/
theorem save_image_reserved_not_zero :
    ∃ out, save_image true ⟨1, 1, 57, [[⟨10, 20, 30⟩]]⟩ = some (SUCCESS, some out) ∧
      out[10]? = some 54 ∧ out[14]? = some 40 ∧ out[26]? = some 1 ∧ out[34]? = some 17 ∧
      ¬ (∀ k, (6 ≤ k ∧ k ≤ 17) ∨ (26 ≤ k ∧ k ≤ 53) → k < 28 ∨ 33 < k →
        out[k]? = some 0) := by
  refine ⟨bmp_header ⟨1, 1, 57, []⟩ ++ [30, 20, 10], by decide, by decide, by decide,
    by decide, by decide, ?_⟩
  intro h
  exact absurd (h 10 (by omega) (by omega)) (by decide)

/-- C12, as amended: for every image whose pixel array matches its dimensions, in the
54-byte header written by `save_image` the bit-depth field (2 bytes at offset 28) is
24, the compression field (4 bytes at offset 30) is 0, the data-offset field at 10-13
is 54, the info-header-size field at 14-17 is 40, the planes field at 26-27 is 1, and
every byte at the offsets 6-9 and 38-53 is 0. -/
theorem save_image_header_constants (image : RGB_Image)
    (hS : Shape image.pixels image.height.toNat image.width.toNat) :
    ∃ out, save_image true image = some (SUCCESS, some out) ∧
      (out.drop 28).take 2 = [24, 0] ∧
      (out.drop 30).take 4 = [0, 0, 0, 0] ∧
      (out.drop 10).take 4 = [54, 0, 0, 0] ∧
      (out.drop 14).take 4 = [40, 0, 0, 0] ∧
      (out.drop 26).take 2 = [1, 0] ∧
      (out.drop 6).take 4 = [0, 0, 0, 0] ∧
      (out.drop 38).take 16 = List.replicate 16 0 := by
  obtain ⟨out, rest, hout, hsplit, _⟩ := save_image_header image hS
  refine ⟨out, hout, ?_, ?_, ?_, ?_, ?_, ?_, ?_⟩ <;>
    · rw [hsplit]; simp [bmp_header, List.replicate]

theorem save_image_header_constants_witness :
    ∃ out, save_image true ⟨1, 1, 57, [[⟨10, 20, 30⟩]]⟩ = some (SUCCESS, some out) ∧
      (out.drop 28).take 2 = [24, 0] ∧
      (out.drop 30).take 4 = [0, 0, 0, 0] ∧
      (out.drop 10).take 4 = [54, 0, 0, 0] ∧
      (out.drop 14).take 4 = [40, 0, 0, 0] ∧
      (out.drop 26).take 2 = [1, 0] ∧
      (out.drop 6).take 4 = [0, 0, 0, 0] ∧
      (out.drop 38).take 16 = List.replicate 16 0 :=
  save_image_header_constants ⟨1, 1, 57, [[⟨10, 20, 30⟩]]⟩ (by decide)

/-- C13: for a grid of `h` rows by `w` pixels saved with `height = h` and `width = w`,
`save_image` writes exactly `3 * w * h` bytes after the 54-byte header, and for every
`i < h` and `j < w` the bytes at the offsets `54 + 3 * (i * w + j) + 0`, `+ 1`, `+ 2` are
the blue, green and red channels of the pixel at `(i, j)`: row-major, row 0 first, no
padding between rows. -/
theorem save_image_pixel_bytes (g : Grid) (h w : Nat) (size : Int) (hS : Shape g h w) :
    ∃ out, save_image true ⟨h, w, size, g⟩ = some (SUCCESS, some out) ∧
      out.length = 54 + 3 * w * h ∧ (out.drop 54).length = 3 * w * h ∧
      ∀ i j, i < h → j < w → ∃ p, readPixel g i j = some p ∧
        out[54 + 3 * (i * w + j) + 0]? = some p.blue ∧
        out[54 + 3 * (i * w + j) + 1]? = some p.green ∧
        out[54 + 3 * (i * w + j) + 2]? = some p.red := by
  obtain ⟨out, hout, hL, _, hP⟩ := save_image_spec ⟨h, w, size, g⟩
    (by simpa using hS)
  simp only [Int.toNat_ofNat] at hL hP
  exact ⟨out, hout, hL, by rw [List.length_drop, hL]; omega, hP⟩

theorem save_image_pixel_bytes_witness :
    ∃ out, save_image true ⟨(2 : Nat), (2 : Nat), 66, sampleGrid⟩ =
        some (SUCCESS, some out) ∧
      out.length = 54 + 3 * 2 * 2 ∧ (out.drop 54).length = 3 * 2 * 2 ∧
      ∀ i j, i < 2 → j < 2 → ∃ p, readPixel sampleGrid i j = some p ∧
        out[54 + 3 * (i * 2 + j) + 0]? = some p.blue ∧
        out[54 + 3 * (i * 2 + j) + 1]? = some p.green ∧
        out[54 + 3 * (i * 2 + j) + 2]? = some p.red :=
  save_image_pixel_bytes sampleGrid 2 2 66 (by decide)

/-! ## Codec: the decoded image -/

theorem getElem?_eq_some_getD (content : List Nat) {k : Nat} (hk : k < content.length) :
    content[k]? = some (content.getD k 0) := by
  rw [List.getD_eq_getElem?_getD, List.getElem?_eq_getElem hk]; rfl

theorem fieldAt_congr {content content' : List Nat} (off : Nat)
    (h : ∀ k, off ≤ k → k < off + 4 → content'[k]? = content[k]?) :
    fieldAt content' off = fieldAt content off := by
  unfold fieldAt
  congr 1
  apply List.ext_getElem?
  intro m
  rw [List.getElem?_take, List.getElem?_take, List.getElem?_drop, List.getElem?_drop]
  by_cases hm : m < 4
  · rw [if_pos hm, if_pos hm]
    exact h (off + m) (by omega) (by omega)
  · rw [if_neg hm, if_neg hm]

theorem pixelAt_congr {content content' : List Nat} (w i j : Nat)
    (h : ∀ k, 54 ≤ k → content'[k]? = content[k]?) :
    pixelAt content' w i j = pixelAt content w i j := by
  simp only [pixelAt, List.getD_eq_getElem?_getD]
  rw [h _ (by omega), h _ (by omega), h _ (by omega)]

/-- C14, counterexample: the 54-byte file `hugeHeightFile` has the fields `w = 0 ≥ 0`
and `h = 2147483647 ≥ 0` and a length of at least `54 + 3 * w * h`, and when the
allocation of its row array returns a null pointer `load_image` does not return
`SUCCESS`: it stores the first row pointer through the null pointer. -/
theorem load_image_null_row_array :
    fieldAt hugeHeightFile 18 = 0 ∧ fieldAt hugeHeightFile 22 = 2147483647 ∧
      54 + 3 * 0 * 2147483647 ≤ hugeHeightFile.length ∧
      load_image (some hugeHeightFile) ⟨0, 0, 0, []⟩ (fun _ _ => ⟨0, 0, 0⟩)
        ⟨false, fun _ => true⟩ = none ∧
      ¬ ∃ img, load_image (some hugeHeightFile) ⟨0, 0, 0, []⟩ (fun _ _ => ⟨0, 0, 0⟩)
        ⟨false, fun _ => true⟩ = some (SUCCESS, img) := by
  have hnone : load_image (some hugeHeightFile) ⟨0, 0, 0, []⟩ (fun _ _ => ⟨0, 0, 0⟩)
      ⟨false, fun _ => true⟩ = none := by decide
  refine ⟨by decide, by decide, by decide, hnone, ?_⟩
  rintro ⟨img, himg⟩
  rw [hnone] at himg
  cases himg

/-- C14, as amended: for every byte sequence whose little-endian signed 32-bit fields at
the offsets 18 and 22 are `w ≥ 0` and `h ≥ 0`, whose length is at least
`54 + 3 * w * h`, and for which the allocations of `load_image` succeed (the row array
when `h > 0`, every row when `w > 0`), `load_image` returns `SUCCESS` with `size` the
field at offset 2, `width = w`, `height = h` and a grid of `h` rows by `w` pixels whose
pixel `(i, j)` has its blue, green and red channels equal to the bytes at the offsets
`54 + 3 * (i * w + j)`, `+ 1` and `+ 2`; a byte sequence of the same length that differs
only at the offsets 0-1, 6-17 and 26-53 gives the same result, whatever the initial
contents of the image and of the allocated rows. -/
theorem load_image_spec (content : List Nat) (image : RGB_Image)
    (heap : Nat → Nat → Pixel) (alloc : Allocator) (w h : Nat)
    (hw : fieldAt content 18 = w) (hh : fieldAt content 22 = h)
    (hlen : 54 + 3 * w * h ≤ content.length) (halloc : AllocOK alloc h w) :
    ∃ g, load_image (some content) image heap alloc =
        some (SUCCESS, ⟨h, w, fieldAt content 2, g⟩) ∧
      Shape g h w ∧
      (∀ i j, i < h → j < w → ∃ p, readPixel g i j = some p ∧
        content[54 + 3 * (i * w + j)]? = some p.blue ∧
        content[54 + 3 * (i * w + j) + 1]? = some p.green ∧
        content[54 + 3 * (i * w + j) + 2]? = some p.red) ∧
      ∀ (content' : List Nat) (image' : RGB_Image) (heap' : Nat → Nat → Pixel)
        (alloc' : Allocator),
        content'.length = content.length →
        (∀ k, (2 ≤ k ∧ k < 6) ∨ (18 ≤ k ∧ k < 26) ∨ 54 ≤ k →
          content'[k]? = content[k]?) →
        AllocOK alloc' h w →
        load_image (some content') image' heap' alloc' =
          load_image (some content) image heap alloc := by
  have hlen0 : 54 + 3 * (fieldAt content 18).toNat * (fieldAt content 22).toNat
      ≤ content.length := by
    rw [hw, hh]; simpa using hlen
  have hok0 : AllocOK alloc (fieldAt content 22).toNat (fieldAt content 18).toNat := by
    rw [hw, hh]; simpa using halloc
  obtain ⟨g, hload, hS, hR⟩ := load_image_complete content image heap alloc hlen0 hok0
  rw [hw, hh] at hload hS hR
  simp only [Int.toNat_ofNat] at hS hR
  refine ⟨g, hload, hS, ?_, ?_⟩
  · intro i j hi hj
    have hoff := pixel_offset_lt hi hj
    refine ⟨pixelAt content w i j, hR i j hi hj, ?_, ?_, ?_⟩
    · exact getElem?_eq_some_getD content (by omega)
    · exact getElem?_eq_some_getD content (by omega)
    · exact getElem?_eq_some_getD content (by omega)
  · intro content' image' heap' alloc' hl hagree halloc'
    have e2 : fieldAt content' 2 = fieldAt content 2 :=
      fieldAt_congr 2 (fun k h1 h2 => hagree k (by omega))
    have e18 : fieldAt content' 18 = fieldAt content 18 :=
      fieldAt_congr 18 (fun k h1 h2 => hagree k (by omega))
    have e22 : fieldAt content' 22 = fieldAt content 22 :=
      fieldAt_congr 22 (fun k h1 h2 => hagree k (by omega))
    obtain ⟨g', hload', hS', hR'⟩ := load_image_complete content' image' heap' alloc'
      (by rw [e18, e22, hl]; exact hlen0)
      (by rw [e18, e22, hw, hh]; simpa using halloc')
    rw [e2, e18, e22, hw, hh] at hload'
    rw [e18, e22, hw, hh] at hS' hR'
    simp only [Int.toNat_ofNat] at hS' hR'
    have hg : g' = g := by
      apply grid_ext hS' hS
      intro a b ha hb
      rw [hR' a b ha hb, hR a b ha hb,
        pixelAt_congr w a b (fun k hk => hagree k (by omega))]
    rw [hload', hload, hg]

theorem load_image_spec_witness :
    fieldAt resolutionFile 18 = (1 : Nat) ∧ fieldAt resolutionFile 22 = (1 : Nat) ∧
    54 + 3 * 1 * 1 ≤ resolutionFile.length ∧ AllocOK allocAll 1 1 ∧
    ∃ g, load_image (some resolutionFile) ⟨0, 0, 0, []⟩ (fun _ _ => ⟨0, 0, 0⟩) allocAll =
        some (SUCCESS, ⟨(1 : Nat), (1 : Nat), fieldAt resolutionFile 2, g⟩) ∧
      Shape g 1 1 ∧
      (∀ i j, i < 1 → j < 1 → ∃ p, readPixel g i j = some p ∧
        resolutionFile[54 + 3 * (i * 1 + j)]? = some p.blue ∧
        resolutionFile[54 + 3 * (i * 1 + j) + 1]? = some p.green ∧
        resolutionFile[54 + 3 * (i * 1 + j) + 2]? = some p.red) ∧
      ∀ (content' : List Nat) (image' : RGB_Image) (heap' : Nat → Nat → Pixel)
        (alloc' : Allocator),
        content'.length = resolutionFile.length →
        (∀ k, (2 ≤ k ∧ k < 6) ∨ (18 ≤ k ∧ k < 26) ∨ 54 ≤ k →
          content'[k]? = resolutionFile[k]?) →
        AllocOK alloc' 1 1 →
        load_image (some content') image' heap' alloc' =
          load_image (some resolutionFile) ⟨0, 0, 0, []⟩ (fun _ _ => ⟨0, 0, 0⟩)
            allocAll :=
  ⟨by decide, by decide, by decide, by decide,
    load_image_spec resolutionFile ⟨0, 0, 0, []⟩ (fun _ _ => ⟨0, 0, 0⟩) allocAll 1 1
      (by decide) (by decide) (by decide) (by decide)⟩

theorem load_image_total (content : List Nat) (image : RGB_Image)
    (heap : Nat → Nat → Pixel) :
    ∃ img, load_image (some content) image heap allocAll = some (SUCCESS, img) := by
  obtain ⟨size, width, height, fp, _, heq⟩ := load_image_eq content image heap allocAll
  have hok : AllocOK allocAll height.toNat width.toNat :=
    ⟨fun _ => rfl, fun _ _ _ => rfl⟩
  obtain ⟨st, hst, _⟩ := load_pixels_total height.toNat width.toNat
    (mallocGrid heap (height.toNat : Int) (width.toNat : Int)) fp
    (shape_mallocGrid heap _ _)
  rw [heq, allocPixels_ok heap height width hok, Option.some_bind, forEachPixel_toNat,
    mallocGrid_toNat, hst]
  exact ⟨_, rfl⟩

/-- C15, the code at the failing input: on the empty file `load_image` returns
`SUCCESS`, not `FAIL`; the image keeps the `size`, `width` and `height` it held on entry
and its pixels are the indeterminate contents of the allocated rows. Likewise, when its
allocations succeed, `load_image` returns `SUCCESS` on every file that can be opened,
and whatever the allocations do it never returns `FAIL` on such a file. -/
theorem load_image_truncated_success :
    load_image (some []) ⟨2, 1, 7, []⟩ (fun _ _ => ⟨9, 9, 9⟩) allocAll =
        some (SUCCESS, ⟨2, 1, 7, [[⟨9, 9, 9⟩], [⟨9, 9, 9⟩]]⟩) ∧
      SUCCESS ≠ FAIL ∧
      (∀ (content : List Nat) (image : RGB_Image) (heap : Nat → Nat → Pixel),
        ∃ img, load_image (some content) image heap allocAll = some (SUCCESS, img)) ∧
      ∀ (content : List Nat) (image : RGB_Image) (heap : Nat → Nat → Pixel)
        (alloc : Allocator) (r : Nat × RGB_Image),
        load_image (some content) image heap alloc = some r → r.1 = SUCCESS := by
  refine ⟨by decide, by decide, load_image_total, ?_⟩
  intro content image heap alloc r hr
  exact (load_image_status hr).1

/-- C16, counterexample: `load_image` returns `SUCCESS` on the complete 54-byte file
`emptyImageFile`, whose width and height fields are 0, with `width = 0` and
`height = 0`, and on `negativeWidthFile`, whose width field is -1, with `width = -1`. -/
theorem load_image_nonpositive_dimensions :
    load_image (some emptyImageFile) ⟨5, 5, 5, []⟩ (fun _ _ => ⟨0, 0, 0⟩) allocAll =
        some (SUCCESS, ⟨0, 0, 54, []⟩) ∧
      load_image (some negativeWidthFile) ⟨5, 5, 5, []⟩ (fun _ _ => ⟨0, 0, 0⟩) allocAll =
        some (SUCCESS, ⟨2, -1, 54, [[], []]⟩) ∧
      ¬ ∀ (content : List Nat) (image : RGB_Image) (heap : Nat → Nat → Pixel)
          (alloc : Allocator) (img : RGB_Image),
        load_image (some content) image heap alloc = some (SUCCESS, img) →
          0 < img.width ∧ 0 < img.height := by
  refine ⟨by decide, by decide, ?_⟩
  intro h
  have h0 := h emptyImageFile ⟨5, 5, 5, []⟩ (fun _ _ => ⟨0, 0, 0⟩) allocAll
    ⟨0, 0, 54, []⟩ (by decide)
  exact absurd h0.1 (by decide)

/-- C16, as amended: for every file content that holds the 54-byte header and on which
`load_image` returns `SUCCESS`, the decoded `width` and `height` are the signed header
fields at the offsets 18 and 22, of either sign, so `width > 0` and `height > 0` hold
exactly when the header fields are positive; when the file also holds the
`3 * max(width, 0) * max(height, 0)` pixel bytes its header announces, the pixel grid
has exactly `max(height, 0)` rows of `max(width, 0)` pixels. -/
theorem load_image_dimensions (content : List Nat) (image img : RGB_Image)
    (heap : Nat → Nat → Pixel) (alloc : Allocator) (h54 : 54 ≤ content.length)
    (hload : load_image (some content) image heap alloc = some (SUCCESS, img)) :
    img.width = fieldAt content 18 ∧ img.height = fieldAt content 22 ∧
      (0 < img.width ∧ 0 < img.height ↔
        0 < fieldAt content 18 ∧ 0 < fieldAt content 22) ∧
      (54 + 3 * (fieldAt content 18).toNat * (fieldAt content 22).toNat
          ≤ content.length →
        Shape img.pixels img.height.toNat img.width.toNat) := by
  obtain ⟨_, hw, hh⟩ := (load_image_status hload).2 h54
  refine ⟨hw, hh, by rw [hw, hh], fun hlen => ?_⟩
  have hok := load_image_complete_some hlen hload
  obtain ⟨g, hg, hS, _⟩ := load_image_complete content image heap alloc hlen hok
  rw [hload, Option.some.injEq, Prod.mk.injEq] at hg
  rw [hg.2]
  exact hS

theorem load_image_dimensions_witness :
    54 ≤ negativeWidthFile.length ∧
    load_image (some negativeWidthFile) ⟨5, 5, 5, []⟩ (fun _ _ => ⟨0, 0, 0⟩) allocAll =
        some (SUCCESS, ⟨2, -1, 54, [[], []]⟩) ∧
    (-1 : Int) = fieldAt negativeWidthFile 18 ∧ (2 : Int) = fieldAt negativeWidthFile 22 ∧
      (0 < (-1 : Int) ∧ 0 < (2 : Int) ↔
        0 < fieldAt negativeWidthFile 18 ∧ 0 < fieldAt negativeWidthFile 22) ∧
      (54 + 3 * (fieldAt negativeWidthFile 18).toNat * (fieldAt negativeWidthFile 22).toNat
          ≤ negativeWidthFile.length →
        Shape ([[], []] : Grid) (2 : Int).toNat (-1 : Int).toNat) :=
  ⟨by decide, by decide,
    load_image_dimensions negativeWidthFile ⟨5, 5, 5, []⟩ ⟨2, -1, 54, [[], []]⟩
      (fun _ _ => ⟨0, 0, 0⟩) allocAll (by decide) (by decide)⟩

/-! ## Bounds of the accesses -/

theorem readPixel_isSome_iff {g : Grid} {h w : Nat} (hs : Shape g h w) (i j : Nat) :
    (readPixel g i j).isSome ↔ (i < h ∧ j < w) := by
  constructor
  · intro hsome
    by_contra hc
    rw [readPixel_none hs (by omega)] at hsome
    cases hsome
  · intro hij
    obtain ⟨p, hp⟩ := readPixel_isSome hs hij.1 hij.2
    rw [hp]
    rfl

/-- C17: on a grid of exactly `h` rows of exactly `w` pixels, a bounds-checked read or
update of a pixel succeeds exactly when its row index is below `h` and its column index
below `w`, the scratch array of the flip has the same shape, every row pass of the flip
(reads at `j` from `w - 1` down, writes at `reversedWidth` from `0` up) succeeds on a
scratch array of that shape, and each of `invert_pixels`, `quantize_pixels` at any level,
`remove_red_pixels`, `remove_green_pixels`, `remove_blue_pixels` and
`flip_horizontal_pixels` returns a grid: no access leaves the bounds and every loop
ends. -/
theorem transforms_in_bounds (heap : Nat → Nat → Pixel) (g : Grid) (h w : Nat) (L : Int)
    (hs : Shape g h w) :
    (∀ g', Shape g' h w → ∀ i j,
      ((readPixel g' i j).isSome ↔ (i < h ∧ j < w)) ∧
      ∀ f, ((modifyPixel g' i j f).isSome ↔ (i < h ∧ j < w))) ∧
    Shape (mallocGrid heap h w) h w ∧
    (∀ i r, i < h → Shape r h w → (reverseRow g w i r).isSome) ∧
    (invert_pixels g h w).isSome ∧
    (quantize_pixels g h w L).isSome ∧
    (remove_red_pixels g h w).isSome ∧
    (remove_green_pixels g h w).isSome ∧
    (remove_blue_pixels g h w).isSome ∧
    (flip_horizontal_pixels heap g h w).isSome := by
  refine ⟨?_, shape_mallocGrid heap h w, ?_, ?_, ?_, ?_, ?_, ?_, ?_⟩
  · intro g' hs' i j
    refine ⟨readPixel_isSome_iff hs' i j, fun f => ?_⟩
    rw [modifyPixel_isSome]
    exact readPixel_isSome_iff hs' i j
  · intro i r hi hr
    obtain ⟨r', hr', _⟩ := reverseRow_spec hs hi hr
    rw [hr']; rfl
  · rw [invert_pixels_eq_map hs]; rfl
  · rw [quantize_pixels_eq_map hs L]; rfl
  · rw [remove_red_pixels_eq_map hs]; rfl
  · rw [remove_green_pixels_eq_map hs]; rfl
  · rw [remove_blue_pixels_eq_map hs]; rfl
  · rw [flip_horizontal_pixels_eq_map heap hs]; rfl

theorem transforms_in_bounds_witness :
    (∀ g', Shape g' 2 2 → ∀ i j,
      ((readPixel g' i j).isSome ↔ (i < 2 ∧ j < 2)) ∧
      ∀ f, ((modifyPixel g' i j f).isSome ↔ (i < 2 ∧ j < 2))) ∧
    Shape (mallocGrid (fun _ _ => ⟨0, 0, 0⟩) (2 : Nat) (2 : Nat)) 2 2 ∧
    (∀ i r, i < 2 → Shape r 2 2 → (reverseRow sampleGrid (2 : Nat) i r).isSome) ∧
    (invert_pixels sampleGrid (2 : Nat) (2 : Nat)).isSome ∧
    (quantize_pixels sampleGrid (2 : Nat) (2 : Nat) 9).isSome ∧
    (remove_red_pixels sampleGrid (2 : Nat) (2 : Nat)).isSome ∧
    (remove_green_pixels sampleGrid (2 : Nat) (2 : Nat)).isSome ∧
    (remove_blue_pixels sampleGrid (2 : Nat) (2 : Nat)).isSome ∧
    (flip_horizontal_pixels (fun _ _ => ⟨0, 0, 0⟩) sampleGrid (2 : Nat) (2 : Nat)).isSome :=
  transforms_in_bounds (fun _ _ => ⟨0, 0, 0⟩) sampleGrid 2 2 9 (by decide)

/-! ## Codec: writing then reading -/

/-- C19: for every image whose `size`, `width` and `height` are 32-bit values and whose
pixel array has `max(height, 0)` rows of `max(width, 0)` pixels (so for every
`width ≥ 0` and `height ≥ 0`), `load_image` applied to the bytes written by `save_image`
returns `SUCCESS` and the image itself: the same `size`, `width`, `height` and the same
pixel at every position, whatever the initial contents of the target image and of the
allocated rows. This holds when the allocations for the image's own dimensions succeed,
as with `allocAll`; whatever the allocations do, `load_image` returns nothing else. -/
theorem load_image_save_image (image image0 : RGB_Image) (heap : Nat → Nat → Pixel)
    (alloc : Allocator)
    (hsize : -2147483648 ≤ image.size ∧ image.size < 2147483648)
    (hwidth : -2147483648 ≤ image.width ∧ image.width < 2147483648)
    (hheight : -2147483648 ≤ image.height ∧ image.height < 2147483648)
    (hS : Shape image.pixels image.height.toNat image.width.toNat) :
    ∃ out, save_image true image = some (SUCCESS, some out) ∧
      load_image (some out) image0 heap allocAll = some (SUCCESS, image) ∧
      (AllocOK alloc image.height.toNat image.width.toNat →
        load_image (some out) image0 heap alloc = some (SUCCESS, image)) ∧
      ∀ r, load_image (some out) image0 heap alloc = some r → r = (SUCCESS, image) := by
  obtain ⟨out, hout, hL, hT, hP⟩ := save_image_spec image hS
  have hsplit : out = bmp_header ⟨image.height, image.width, image.size, []⟩ ++
      out.drop 54 := by
    rw [← bmp_header_eq, ← hT, List.take_append_drop]
  obtain ⟨f2, f18, f22⟩ := bmp_header_fields image.size image.width image.height
    (out.drop 54) hsize hwidth hheight
  rw [← hsplit] at f2 f18 f22
  have key : ∀ a : Allocator, AllocOK a image.height.toNat image.width.toNat →
      load_image (some out) image0 heap a = some (SUCCESS, image) := by
    intro a hok
    obtain ⟨g, hload, hSg, hR⟩ := load_image_complete out image0 heap a
      (by rw [f18, f22, hL]) (by rw [f18, f22]; exact hok)
    rw [f2, f18, f22] at hload
    rw [f18, f22] at hSg hR
    have hg : g = image.pixels := by
      apply grid_ext hSg hS
      intro a b ha hb
      obtain ⟨p, hp, h0, h1, h2⟩ := hP a b ha hb
      rw [hR a b ha hb, hp]
      simp only [pixelAt, List.getD_eq_getElem?_getD, h0, h1, h2, Option.getD_some]
    rw [hload, hg]
  refine ⟨out, hout, key allocAll ⟨fun _ => rfl, fun _ _ _ => rfl⟩, key alloc, ?_⟩
  intro r hr
  have hok := load_image_complete_some (by rw [f18, f22, hL]) hr
  rw [f18, f22] at hok
  rw [key alloc hok, Option.some.injEq] at hr
  exact hr.symm

theorem load_image_save_image_witness :
    ∃ out, save_image true ⟨2, 2, 66, sampleGrid⟩ = some (SUCCESS, some out) ∧
      load_image (some out) ⟨0, 0, 0, []⟩ (fun _ _ => ⟨0, 0, 0⟩) allocAll =
        some (SUCCESS, ⟨2, 2, 66, sampleGrid⟩) ∧
      (AllocOK ⟨true, fun i => decide (i < 2)⟩ (2 : Int).toNat (2 : Int).toNat →
        load_image (some out) ⟨0, 0, 0, []⟩ (fun _ _ => ⟨0, 0, 0⟩)
          ⟨true, fun i => decide (i < 2)⟩ = some (SUCCESS, ⟨2, 2, 66, sampleGrid⟩)) ∧
      ∀ r, load_image (some out) ⟨0, 0, 0, []⟩ (fun _ _ => ⟨0, 0, 0⟩)
        ⟨true, fun i => decide (i < 2)⟩ = some r → r = (SUCCESS, ⟨2, 2, 66, sampleGrid⟩) :=
  load_image_save_image ⟨2, 2, 66, sampleGrid⟩ ⟨0, 0, 0, []⟩ (fun _ _ => ⟨0, 0, 0⟩)
    ⟨true, fun i => decide (i < 2)⟩ (by decide) (by decide) (by decide) (by decide)

/-! ## Quantization at two levels -/

theorem quantizeChannel_lt {l v : Nat} (hl : l < 8) (hv : v < 256) :
    quantizeChannel l v < 256 := by
  rw [(quantizeChannel_closed l hl v hv).1]
  omega

theorem quantizeChannel_max {a b v : Nat} (ha : a < 8) (hb : b < 8) (hv : v < 256) :
    quantizeChannel b (quantizeChannel a v) = quantizeChannel (max a b) v := by
  have hq := quantizeChannel_lt ha hv
  obtain ⟨lowA, highA⟩ := quantizeChannel_bits ha hv
  obtain ⟨lowB, highB⟩ := quantizeChannel_bits hb hq
  obtain ⟨lowM, highM⟩ := quantizeChannel_bits (by omega : max a b < 8) hv
  apply Nat.eq_of_testBit_eq
  intro k
  by_cases hk : k < max a b
  · rw [lowM k hk]
    by_cases hkb : k < b
    · exact lowB k hkb
    · rw [highB k (by omega)]
      exact lowA k (by omega)
  · rw [highM k (by omega), highB k (by omega), highA k (by omega)]

theorem quantizePixel_max {a b : Nat} (ha : a < 8) (hb : b < 8) {p : Pixel}
    (hp : p.IsByte) :
    quantizePixel b (quantizePixel a p) = quantizePixel (max a b) p := by
  obtain ⟨hr, hg, hbl⟩ := hp
  obtain ⟨c1, c2, c3⟩ := quantizePixel_channels a p
  obtain ⟨d1, d2, d3⟩ := quantizePixel_channels b (quantizePixel a p)
  obtain ⟨e1, e2, e3⟩ := quantizePixel_channels (max a b) p
  have ext : ∀ x y : Pixel, x.red = y.red → x.green = y.green → x.blue = y.blue →
      x = y := by
    intro x y h1 h2 h3
    cases x; cases y
    simp only at h1 h2 h3
    simp [h1, h2, h3]
  apply ext
  · rw [d1, c1, e1, quantizeChannel_max ha hb hr]
  · rw [d2, c2, e2, quantizeChannel_max ha hb hg]
  · rw [d3, c3, e3, quantizeChannel_max ha hb hbl]

theorem quantize_pixels_twice {g : Grid} {h w a b : Nat} (hs : Shape g h w)
    (hbyte : ByteGrid g) (ha : a < 8) (hb : b < 8) :
    ∃ g1, quantize_pixels g h w a = some g1 ∧
      quantize_pixels g1 h w b = some (g.map (List.map (quantizePixel (max a b)))) := by
  refine ⟨_, quantize_pixels_eq_map hs a, ?_⟩
  rw [quantize_pixels_eq_map (shape_map hs _) b, List.map_map]
  congr 1
  apply List.map_congr_left
  intro row hrow
  rw [Function.comp_apply, List.map_map]
  apply List.map_congr_left
  intro p hp
  simp only [Function.comp_apply, Int.toNat_ofNat]
  exact quantizePixel_max ha hb (hbyte row hrow p hp)

/-- C20: on a grid of `h` rows by `w` pixels of `unsigned char` channels and for levels
`a` and `b` with `0 ≤ a, b ≤ 7`, `quantize_pixels` at level `a` followed by
`quantize_pixels` at level `b` returns the grid that `quantize_pixels` returns at level
`max a b`; so the two orders give the same grid, and a level `b ≤ a` applied after level
`a` changes nothing. -/
theorem quantize_pixels_compose (g : Grid) (h w a b : Nat) (hs : Shape g h w)
    (hbyte : ByteGrid g) (ha : a ≤ 7) (hb : b ≤ 7) :
    ∃ gm, quantize_pixels g h w (max a b : Nat) = some gm ∧
      (∃ g1, quantize_pixels g h w a = some g1 ∧ quantize_pixels g1 h w b = some gm) ∧
      (∃ g2, quantize_pixels g h w b = some g2 ∧ quantize_pixels g2 h w a = some gm) ∧
      (b ≤ a → ∃ g1, quantize_pixels g h w a = some g1 ∧
        quantize_pixels g1 h w b = some g1) := by
  have ha' : a < 8 := by omega
  have hb' : b < 8 := by omega
  refine ⟨_, quantize_pixels_eq_map hs _, ?_, ?_, ?_⟩
  · simp only [Int.toNat_ofNat]
    exact quantize_pixels_twice hs hbyte ha' hb'
  · simp only [Int.toNat_ofNat]
    rw [Nat.max_comm]
    exact quantize_pixels_twice hs hbyte hb' ha'
  · intro hba
    obtain ⟨g1, h1, h2⟩ := quantize_pixels_twice hs hbyte ha' hb'
    refine ⟨g1, h1, ?_⟩
    rw [h2, Nat.max_eq_left hba, ← Option.some_inj, ← h1, quantize_pixels_eq_map hs a]
    simp only [Int.toNat_ofNat]

theorem quantize_pixels_compose_witness :
    ∃ gm, quantize_pixels sampleGrid (2 : Nat) (2 : Nat) (max 5 2 : Nat) = some gm ∧
      (∃ g1, quantize_pixels sampleGrid (2 : Nat) (2 : Nat) (5 : Nat) = some g1 ∧
        quantize_pixels g1 (2 : Nat) (2 : Nat) (2 : Nat) = some gm) ∧
      (∃ g2, quantize_pixels sampleGrid (2 : Nat) (2 : Nat) (2 : Nat) = some g2 ∧
        quantize_pixels g2 (2 : Nat) (2 : Nat) (5 : Nat) = some gm) ∧
      (2 ≤ 5 → ∃ g1, quantize_pixels sampleGrid (2 : Nat) (2 : Nat) (5 : Nat) = some g1 ∧
        quantize_pixels g1 (2 : Nat) (2 : Nat) (2 : Nat) = some g1) :=
  quantize_pixels_compose sampleGrid 2 2 5 2 (by decide) (by decide) (by decide)
    (by decide)

/-! ## Prompted parameters -/

theorem levelPrompt_spec : ∀ (input : List Int) (c0 c : Int),
    levelPrompt c0 input = some c →
      0 ≤ c ∧ c ≤ 7 ∧ ((input = [] ∧ c = c0) ∨ FirstInRange 0 7 input c)
  | [], c0, c, h => by
    simp only [levelPrompt] at h
    split at h
    · cases h
    · cases h
      exact ⟨by omega, by omega, Or.inl ⟨rfl, rfl⟩⟩
  | x :: rest, c0, c, h => by
    simp only [levelPrompt] at h
    split at h
    · rename_i hx
      obtain ⟨h0, h7, hcase⟩ := levelPrompt_spec rest x c h
      refine ⟨h0, h7, Or.inr ?_⟩
      rcases hcase with ⟨_, hc⟩ | ⟨pre, post, hsplit, hpre, _, _⟩
      · omega
      · refine ⟨x :: pre, post, by rw [hsplit]; rfl, ?_, h0, h7⟩
        intro y hy
        rcases List.mem_cons.mp hy with rfl | hy
        · exact hx
        · exact hpre y hy
    · cases h
      exact ⟨by omega, by omega, Or.inr ⟨[], rest, rfl, by simp, by omega, by omega⟩⟩

theorem channelPrompt_spec : ∀ (input : List Int) (c0 c : Int),
    channelPrompt c0 input = some c →
      1 ≤ c ∧ c ≤ 3 ∧ ((input = [] ∧ c = c0) ∨ FirstInRange 1 3 input c)
  | [], c0, c, h => by
    simp only [channelPrompt] at h
    split at h
    · cases h
    · cases h
      exact ⟨by omega, by omega, Or.inl ⟨rfl, rfl⟩⟩
  | x :: rest, c0, c, h => by
    simp only [channelPrompt] at h
    split at h
    · rename_i hx
      obtain ⟨h0, h7, hcase⟩ := channelPrompt_spec rest x c h
      refine ⟨h0, h7, Or.inr ?_⟩
      rcases hcase with ⟨_, hc⟩ | ⟨pre, post, hsplit, hpre, _, _⟩
      · omega
      · refine ⟨x :: pre, post, by rw [hsplit]; rfl, ?_, h0, h7⟩
        intro y hy
        rcases List.mem_cons.mp hy with rfl | hy
        · exact hx
        · exact hpre y hy
    · cases h
      exact ⟨by omega, by omega, Or.inr ⟨[], rest, rfl, by simp, by omega, by omega⟩⟩

theorem levelPrompt_exits : ∀ (input : List Int) (c0 : Int),
    (∃ x ∈ input, 0 ≤ x ∧ x ≤ 7) → levelPrompt c0 input ≠ none
  | [], _, h => by
    obtain ⟨x, hx, _⟩ := h
    cases hx
  | x :: rest, _, h => by
    simp only [levelPrompt]
    split
    · rename_i hx
      apply levelPrompt_exits rest x
      obtain ⟨y, hy, hy0, hy7⟩ := h
      rcases List.mem_cons.mp hy with rfl | hy
      · omega
      · exact ⟨y, hy, hy0, hy7⟩
    · simp

theorem channelPrompt_exits : ∀ (input : List Int) (c0 : Int),
    (∃ x ∈ input, 1 ≤ x ∧ x ≤ 3) → channelPrompt c0 input ≠ none
  | [], _, h => by
    obtain ⟨x, hx, _⟩ := h
    cases hx
  | x :: rest, _, h => by
    simp only [channelPrompt]
    split
    · rename_i hx
      apply channelPrompt_exits rest x
      obtain ⟨y, hy, hy0, hy7⟩ := h
      rcases List.mem_cons.mp hy with rfl | hy
      · omega
      · exact ⟨y, hy, hy0, hy7⟩
    · simp

/-- C18: after a successful `load_image`, for every sequence of integers entered at the
prompt, `quantize_image` either never leaves its prompt loop and calls nothing, or calls
`quantize_pixels` once, on the loaded grid, with a level `c` in `[0, 7]` that is the
first entry in that range (every entry before it is out of range and discarded; with no
entry at all `choice` keeps its initial value 1); `remove_image_channel` likewise either
never leaves its loop or applies to the loaded grid exactly the one of
`remove_red_pixels`, `remove_green_pixels`, `remove_blue_pixels` that matches the first
entry `c` in `{1, 2, 3}`. Each loop is left as soon as an entry of its range is read. -/
theorem prompted_parameter_in_domain (file : Option (List Nat)) (image img : RGB_Image)
    (heap : Nat → Nat → Pixel) (alloc : Allocator) (input : List Int) (writable : Bool)
    (hload : load_image file image heap alloc = some (SUCCESS, img)) :
    ((levelPrompt 1 input = none ∧
        quantize_image file image heap alloc input writable = none) ∨
      ∃ c, 0 ≤ c ∧ c ≤ 7 ∧ ((input = [] ∧ c = 1) ∨ FirstInRange 0 7 input c) ∧
        quantize_image file image heap alloc input writable =
          (quantize_pixels img.pixels img.height img.width c).bind fun pixels =>
            (save_image writable { img with pixels := pixels }).map fun w => w.2) ∧
    ((channelPrompt 1 input = none ∧
        remove_image_channel file image heap alloc input writable = none) ∨
      ∃ c, ((input = [] ∧ c = 1) ∨ FirstInRange 1 3 input c) ∧
        ((c = 1 ∧ remove_image_channel file image heap alloc input writable =
            (remove_red_pixels img.pixels img.height img.width).bind fun pixels =>
              (save_image writable { img with pixels := pixels }).map fun w => w.2) ∨
          (c = 2 ∧ remove_image_channel file image heap alloc input writable =
            (remove_green_pixels img.pixels img.height img.width).bind fun pixels =>
              (save_image writable { img with pixels := pixels }).map fun w => w.2) ∨
          (c = 3 ∧ remove_image_channel file image heap alloc input writable =
            (remove_blue_pixels img.pixels img.height img.width).bind fun pixels =>
              (save_image writable { img with pixels := pixels }).map fun w => w.2))) ∧
    ((∃ x ∈ input, 0 ≤ x ∧ x ≤ 7) → levelPrompt 1 input ≠ none) ∧
    ((∃ x ∈ input, 1 ≤ x ∧ x ≤ 3) → channelPrompt 1 input ≠ none) := by
  refine ⟨?_, ?_, levelPrompt_exits input 1, channelPrompt_exits input 1⟩
  · cases hp : levelPrompt 1 input with
    | none =>
      left
      refine ⟨rfl, ?_⟩
      simp [quantize_image, hload, SUCCESS, hp]
    | some c =>
      right
      obtain ⟨h0, h7, hcase⟩ := levelPrompt_spec input 1 c hp
      refine ⟨c, h0, h7, hcase, ?_⟩
      simp [quantize_image, hload, SUCCESS, hp]
  · cases hp : channelPrompt 1 input with
    | none =>
      left
      refine ⟨rfl, ?_⟩
      simp [remove_image_channel, hload, SUCCESS, hp]
    | some c =>
      right
      obtain ⟨h1, h3, hcase⟩ := channelPrompt_spec input 1 c hp
      refine ⟨c, hcase, ?_⟩
      have hc : c = 1 ∨ c = 2 ∨ c = 3 := by omega
      rcases hc with rfl | rfl | rfl
      · left
        refine ⟨rfl, ?_⟩
        simp [remove_image_channel, hload, SUCCESS, hp, removeChosenChannel, RED]
      · right; left
        refine ⟨rfl, ?_⟩
        simp [remove_image_channel, hload, SUCCESS, hp, removeChosenChannel, RED, GREEN]
      · right; right
        refine ⟨rfl, ?_⟩
        simp [remove_image_channel, hload, SUCCESS, hp, removeChosenChannel, RED, GREEN,
          BLUE]

theorem prompted_parameter_in_domain_witness :
    load_image (some resolutionFile) ⟨0, 0, 0, []⟩ (fun _ _ => ⟨0, 0, 0⟩) allocAll =
        some (SUCCESS, ⟨1, 1, 57, [[⟨10, 20, 30⟩]]⟩) ∧
    ((levelPrompt 1 [9, -1, 3, 100] = none ∧
        quantize_image (some resolutionFile) ⟨0, 0, 0, []⟩ (fun _ _ => ⟨0, 0, 0⟩)
          allocAll [9, -1, 3, 100] true = none) ∨
      ∃ c, 0 ≤ c ∧ c ≤ 7 ∧
        ((([9, -1, 3, 100] : List Int) = [] ∧ c = 1) ∨
          FirstInRange 0 7 [9, -1, 3, 100] c) ∧
        quantize_image (some resolutionFile) ⟨0, 0, 0, []⟩ (fun _ _ => ⟨0, 0, 0⟩)
          allocAll [9, -1, 3, 100] true =
          (quantize_pixels [[⟨10, 20, 30⟩]] 1 1 c).bind fun pixels =>
            (save_image true ⟨1, 1, 57, pixels⟩).map fun w => w.2) ∧
    ((channelPrompt 1 [9, -1, 3, 100] = none ∧
        remove_image_channel (some resolutionFile) ⟨0, 0, 0, []⟩ (fun _ _ => ⟨0, 0, 0⟩)
          allocAll [9, -1, 3, 100] true = none) ∨
      ∃ c, ((([9, -1, 3, 100] : List Int) = [] ∧ c = 1) ∨
          FirstInRange 1 3 [9, -1, 3, 100] c) ∧
        ((c = 1 ∧ remove_image_channel (some resolutionFile) ⟨0, 0, 0, []⟩
            (fun _ _ => ⟨0, 0, 0⟩) allocAll [9, -1, 3, 100] true =
            (remove_red_pixels [[⟨10, 20, 30⟩]] 1 1).bind fun pixels =>
              (save_image true ⟨1, 1, 57, pixels⟩).map fun w => w.2) ∨
          (c = 2 ∧ remove_image_channel (some resolutionFile) ⟨0, 0, 0, []⟩
            (fun _ _ => ⟨0, 0, 0⟩) allocAll [9, -1, 3, 100] true =
            (remove_green_pixels [[⟨10, 20, 30⟩]] 1 1).bind fun pixels =>
              (save_image true ⟨1, 1, 57, pixels⟩).map fun w => w.2) ∨
          (c = 3 ∧ remove_image_channel (some resolutionFile) ⟨0, 0, 0, []⟩
            (fun _ _ => ⟨0, 0, 0⟩) allocAll [9, -1, 3, 100] true =
            (remove_blue_pixels [[⟨10, 20, 30⟩]] 1 1).bind fun pixels =>
              (save_image true ⟨1, 1, 57, pixels⟩).map fun w => w.2))) ∧
    ((∃ x ∈ ([9, -1, 3, 100] : List Int), 0 ≤ x ∧ x ≤ 7) →
      levelPrompt 1 [9, -1, 3, 100] ≠ none) ∧
    ((∃ x ∈ ([9, -1, 3, 100] : List Int), 1 ≤ x ∧ x ≤ 3) →
      channelPrompt 1 [9, -1, 3, 100] ≠ none) :=
  ⟨by decide,
    prompted_parameter_in_domain (some resolutionFile) ⟨0, 0, 0, []⟩
      ⟨1, 1, 57, [[⟨10, 20, 30⟩]]⟩ (fun _ _ => ⟨0, 0, 0⟩) allocAll [9, -1, 3, 100] true
      (by decide)⟩

end Bitmap
